import Mathlib

/-!
# Canvas GUI manager (`src/Canvas/gui_mgr.cxx`)

A shallow embedding of `GUIMgr` (layer stack, pointer routing, resize handling,
canvas placement) and of `WindowPlacement`.

Conventions of the embedding:

* Objects held through `boost::shared_ptr` / `boost::weak_ptr` live in a `World`:
  a window or canvas has an identity (its index in the world) and is either
  alive or destroyed.  A weak pointer is an optional identity; `lock` yields a
  strong pointer, which is empty when the object is gone.
* Dereferencing an empty strong pointer is a fault; functions that can do so
  return `Option`, with `none` standing for the fault.
* An `int` value is an integer.  A `float` or `double` value is the rational number
  it denotes, and a floating-point operation is the exact operation followed by
  `toFloat` or `toDouble` (IEEE 754 binary32 / binary64, round to nearest, ties to
  even, gradual underflow).  Infinities and NaN are not modelled.
* The window's input handler (`canvas::Window::handleMouseEvent`) is a
  parameter `handler`; the event handed to it is recorded in the result.
-/

namespace GuiMgr

/-! ## Objects and pointers -/

/-- Identity of a `canvas::Window` object. -/
abbrev WindowId := Nat

/-- Identity of a `Canvas` object. -/
abbrev CanvasId := Nat

/-- A `CanvasPtr` (shared pointer): empty or the identity of a canvas. -/
abbrev CanvasPtr := Option CanvasId

/-- A `CanvasWeakPtr`: empty or the identity of a canvas that may be gone. -/
abbrev CanvasWeakPtr := Option CanvasId

/-- A `canvas::WindowWeakPtr`: empty or the identity of a window that may be gone. -/
abbrev WindowWeakPtr := Option WindowId

/-- Rectangle of a window (`SGRect<int>`), in viewport pixels. -/
structure Region where
  x : Int
  y : Int
  width : Int
  height : Int
deriving DecidableEq, Repr

/-- Modelled from the spec: `Region::contains` (declared in a header that is not
part of the source tree here): true iff `x` lies in `[region.x, region.x+width)`
and `y` in `[region.y, region.y+height)`. -/
def Region.contains (r : Region) (px py : ℚ) : Bool :=
  decide ((r.x : ℚ) ≤ px) && decide (px < (r.x : ℚ) + (r.width : ℚ)) &&
  decide ((r.y : ℚ) ≤ py) && decide (py < (r.y : ℚ) + (r.height : ℚ))

/-- The part of a `canvas::Window` that the manager reads or writes:
its region, the `layer` entry of its property node (absent when the
configuration has none) and the weak reference to the canvas it shows. -/
structure Window where
  region : Region
  layer : Option Int
  canvas : CanvasWeakPtr
deriving DecidableEq, Repr

/-- A `canvas::WindowPtr` (shared pointer): empty, or a live window with its identity. -/
abbrev WindowPtr := Option (WindowId × Window)

/-- All window and canvas objects ever created.  `windows[i] = none` and
`canvases[i] = false` mean that object `i` has been destroyed. -/
structure World where
  windows : List (Option Window)
  canvases : List Bool
deriving DecidableEq, Repr

/-- The live window with identity `id`, if any. -/
def World.window (world : World) (id : WindowId) : Option Window :=
  match world.windows[id]? with
  | some (some w) => some w
  | _ => none

/-- Is the canvas with identity `id` alive. -/
def World.canvasAlive (world : World) (id : CanvasId) : Bool :=
  match world.canvases[id]? with
  | some true => true
  | _ => false

/-- `WindowWeakPtr::lock()`. -/
def lockWindow (world : World) (p : WindowWeakPtr) : WindowPtr :=
  match p with
  | none => none
  | some id =>
    match world.window id with
    | some w => some (id, w)
    | none => none

/-- `CanvasWeakPtr::lock()`. -/
def lockCanvas (world : World) (p : CanvasWeakPtr) : CanvasPtr :=
  match p with
  | none => none
  | some id => if world.canvasAlive id then some id else none

/-- Modelled from the spec: `Window::setCanvas` (defined outside the source tree
here) records the canvas as the window's `attachedCanvas`; an empty pointer
clears it.  The window is given by a strong pointer's identity. -/
def World.setCanvas (world : World) (id : WindowId) (canvas : CanvasPtr) : World :=
  match world.window id with
  | some w => { world with windows := world.windows.set id (some { w with canvas := canvas }) }
  | none => world

/-! ## Scene graph -/

/-- A window's visual node (`window->getGroup()`); its user data is a
`WindowUserData` holding a weak pointer to the window. -/
structure Node where
  window : WindowWeakPtr
deriving DecidableEq, Repr

/-- A layer: an `osg::Group` whose children are window nodes in insertion order. -/
abbrev Layer := List Node

/-- The `osg::MatrixTransform` `_transform`: its child groups (the layer stack),
its matrix in the row-major order of the `osg::Matrix` constructor, and the number
of `setMatrix` calls made so far. -/
structure Transform where
  children : List Layer
  matrix : List (List ℚ)
  setMatrixCalls : Nat
deriving DecidableEq, Repr

/-- State of `GUIMgr`: the transform with the layer stack, the cached viewport
size (`_width`, `_height`), the window of the last press (`_last_push`), the last
dispatched cursor position (`_last_x`, `_last_y`) and the registry `_elements`, whose
slots are empty or hold a strong pointer to a window. -/
structure GUIMgr where
  transform : Transform
  width : Int
  height : Int
  last_push : WindowWeakPtr
  last_x : ℚ
  last_y : ℚ
  elements : List (Option WindowId)
deriving DecidableEq, Repr

/-! ## Placements -/

/-- `WindowPlacement`: a weak pointer to the window and one to the canvas. -/
structure WindowPlacement where
  window : WindowWeakPtr
  canvas : CanvasWeakPtr
deriving DecidableEq, Repr

/-- `WindowPlacement::~WindowPlacement`. -/
def WindowPlacement.destroy (world : World) (p : WindowPlacement) : World :=
  match lockWindow world p.window, lockCanvas world p.canvas with
  | some (id, w), some c =>
    if some c = lockCanvas world w.canvas then world.setCanvas id none else world
  | _, _ => world

/-- `static_cast<int>(i)` for a `size_t` value on a 32-bit `int`. -/
def castInt (i : Nat) : Int :=
  ((i + 2 ^ 31) % 2 ^ 32 : Nat) - 2 ^ 31

/-- The loop of `GUIMgr::addPlacement` from index `i` on; `elements` is what is
left of `_elements` from that index. -/
def addPlacementLoop (placement_index : Int) (canvas : CanvasPtr) :
    Nat → List (Option WindowId) → World → List WindowPlacement →
    World × List WindowPlacement
  | _, [], world, placements => (world, placements)
  | i, e :: rest, world, placements =>
    if placement_index ≥ 0 ∧ castInt i ≠ placement_index then
      addPlacementLoop placement_index canvas (i + 1) rest world placements
    else
      match e with
      | none => addPlacementLoop placement_index canvas (i + 1) rest world placements
      | some id =>
        addPlacementLoop placement_index canvas (i + 1) rest
          (world.setCanvas id canvas) (placements ++ [⟨some id, canvas⟩])

/-- `GUIMgr::addPlacement`; `index` is the `index` entry of the placement's
property node, absent when the node has none. -/
def addPlacement (world : World) (mgr : GUIMgr) (index : Option Int) (canvas : CanvasPtr) :
    World × List WindowPlacement :=
  let placement_index := index.getD (-1)
  addPlacementLoop placement_index canvas 0 mgr.elements world []

/-! ## Window insertion -/

/-- The `while` loop of `GUIMgr::elementCreated`: append groups while the number
of children is at most `layer_index`; `layer` points to the group created last. -/
def growLayers (layer_index : Nat) (children : List Layer) (layer : Option Nat) :
    List Layer × Option Nat :=
  if children.length ≤ layer_index then
    growLayers layer_index (children ++ [[]]) (some children.length)
  else
    (children, layer)
termination_by layer_index + 1 - children.length
decreasing_by simp_wf; omega

/-- `layer->addChild(node)` for the group at position `k` of the stack. -/
def addChild : List Layer → Nat → Node → List Layer
  | [], _, _ => []
  | l :: ls, 0, n => (l ++ [n]) :: ls
  | l :: ls, k + 1, n => l :: addChild ls k n

/-- `GUIMgr::elementCreated` for the window `window` with identity `id`.
`none` stands for calling `addChild` through a null `layer`. -/
def elementCreated (mgr : GUIMgr) (id : WindowId) (window : Window) : Option GUIMgr :=
  let layer_index : Nat := (max 0 (window.layer.getD 1)).toNat
  let grown : List Layer × Option Nat :=
    if layer_index < mgr.transform.children.length then
      (mgr.transform.children, some layer_index)
    else
      growLayers layer_index mgr.transform.children none
  match grown.2 with
  | none => none
  | some k =>
    some { mgr with
      transform := { mgr.transform with children := addChild grown.1 k ⟨some id⟩ } }

/-! ## Events -/

/-- `osgGA::GUIEventAdapter::EventType`. -/
inductive EventType where
  | NONE | PUSH | RELEASE | DOUBLECLICK | DRAG | MOVE | KEYDOWN | KEYUP | FRAME
  | RESIZE | SCROLL | PEN_PRESSURE | PEN_ORIENTATION | PEN_PROXIMITY_ENTER
  | PEN_PROXIMITY_LEAVE | CLOSE_WINDOW | QUIT_APPLICATION | USER
deriving DecidableEq, Repr

/-- `osgGA::GUIEventAdapter::MouseYOrientation`. -/
inductive MouseYOrientation where
  | Y_INCREASING_UPWARDS | Y_INCREASING_DOWNWARDS
deriving DecidableEq, Repr

/-- What the manager reads of an `osgGA::GUIEventAdapter`.  The normalised
coordinates are `float` values. -/
structure GUIEventAdapter where
  eventType : EventType
  xNormalized : ℚ
  yNormalized : ℚ
  mouseYOrientation : MouseYOrientation
  button : Int
  buttonMask : Int
  modKeyMask : Int
  scrollingMotion : Int
  windowX : Int
  windowY : Int
  windowWidth : Int
  windowHeight : Int
deriving DecidableEq, Repr

/-- `canvas::MouseEvent`.  The coordinates `x`, `y`, `dx`, `dy` are `float` values,
as are `_last_x` and `_last_y` of the manager. -/
structure MouseEvent where
  type : EventType
  x : ℚ
  y : ℚ
  dx : ℚ
  dy : ℚ
  button : Int
  state : Int
  mod : Int
  scroll : Int
deriving DecidableEq, Repr

/-- Result of handling one event: the manager afterwards, the window whose
handler was called together with the event it was given, and the returned flag. -/
structure EventResult where
  mgr : GUIMgr
  dispatched : Option (WindowId × MouseEvent)
  consumed : Bool

/-! ## Resize -/

/-- `GUIMgr::handleResize`. -/
def handleResize (mgr : GUIMgr) (_x _y width height : Int) : GUIMgr :=
  if mgr.width = width ∧ mgr.height = height then
    mgr
  else
    { mgr with
      width := width
      height := height
      transform := { mgr.transform with
        matrix := [[1, 0, 0, 0], [0, -1, 0, 0], [0, 0, 1, 0], [0, (height : ℚ), 0, 1]]
        setMatrixCalls := mgr.transform.setMatrixCalls + 1 } }

/-! ## Floating point -/

/-- The power `2 ^ k` for an integer exponent. -/
def pow2 (k : Int) : ℚ :=
  if 0 ≤ k then ((2 ^ k.toNat : Nat) : ℚ) else 1 / ((2 ^ (-k).toNat : Nat) : ℚ)

/-- Binary logarithm of a natural number by repeated halving, at most `fuel` times. -/
def log2Aux : Nat → Nat → Nat
  | 0, _ => 0
  | fuel + 1, n => if n < 2 then 0 else log2Aux fuel (n / 2) + 1

/-- The binary logarithm of a natural number, rounded down (0 for 0). -/
def natLog2 (n : Nat) : Nat := log2Aux n n

/-- The exponent of a non-zero rational: the `k` with `2 ^ k ≤ |q| < 2 ^ (k + 1)`. -/
def ilog2 (q : ℚ) : Int :=
  let k : Int := (natLog2 q.num.natAbs : Int) - (natLog2 q.den : Int)
  if pow2 k ≤ |q| then k else k - 1

/-- Rounding to the nearest integer, ties to the even one. -/
def roundHalfEven (m : ℚ) : Int :=
  let f : Int := ⌊m⌋
  if m - f < 1 / 2 then f
  else if 1 / 2 < m - f then f + 1
  else if f % 2 = 0 then f else f + 1

/-- IEEE 754 rounding to nearest, ties to even, for a binary format with `prec`
significand bits and least normal exponent `emin` (below it the spacing stays that of
the subnormal numbers).  The exponent range has no upper end here. -/
def roundNearestEven (prec : Nat) (emin : Int) (q : ℚ) : ℚ :=
  if q = 0 then 0
  else
    let e : Int := max (ilog2 q) emin
    let ulp : ℚ := pow2 (e - ((prec : Int) - 1))
    (roundHalfEven (q / ulp) : ℚ) * ulp

/-- Rounding to `float` (binary32). -/
def toFloat (q : ℚ) : ℚ := roundNearestEven 24 (-126) q

/-- Rounding to `double` (binary64). -/
def toDouble (q : ℚ) : ℚ := roundNearestEven 53 (-1022) q

/-- Conversion of an `int` to `float`. -/
def intToFloat (i : Int) : ℚ := toFloat (i : ℚ)

/-- The `float` subtraction `a - b`. -/
def floatSub (a b : ℚ) : ℚ := toFloat (a - b)

/-! ## Pointer routing -/

/-- The expression `0.5 * (n + 1) * size + 0.5` of `GUIMgr::handleMouse` stored in a
`float` field, for a `float` `n` and an `int` `size`: the sum `n + 1` is a `float`
addition, the products and the last sum are `double` operations. -/
def pixelCoord (n : ℚ) (size : Int) : ℚ :=
  toFloat (toDouble (toDouble (toDouble ((1 / 2 : ℚ) * toFloat (n + 1)) * (size : ℚ)) + 1 / 2))

/-- `event.x` as computed at the top of `GUIMgr::handleMouse`. -/
def eventX (mgr : GUIMgr) (ea : GUIEventAdapter) : ℚ :=
  pixelCoord ea.xNormalized mgr.width

/-- `event.y` as computed at the top of `GUIMgr::handleMouse`, including the flip
`event.y = _height - event.y`, a `float` subtraction. -/
def eventY (mgr : GUIMgr) (ea : GUIEventAdapter) : ℚ :=
  let y : ℚ := pixelCoord ea.yNormalized mgr.height
  if ea.mouseYOrientation ≠ MouseYOrientation.Y_INCREASING_DOWNWARDS then
    floatSub (intToFloat mgr.height) y
  else
    y

/-- The inner loop of the hit test over one layer; `nodes` are the children in
visiting order (last child first).  `none` is the fault of reading the region
through an empty pointer; `some none` means no child matched. -/
def hitLayer (world : World) (x y : ℚ) : List Node → Option WindowPtr
  | [] => some none
  | n :: rest =>
    match lockWindow world n.window with
    | none => none
    | some (id, w) =>
      if w.region.contains x y then some (some (id, w)) else hitLayer world x y rest

/-- The outer loop of the hit test; `layers` are the groups in visiting order
(highest index first). -/
def hitLayers (world : World) (x y : ℚ) : List Layer → Option WindowPtr
  | [] => some none
  | layer :: rest =>
    if layer.length = 0 then
      hitLayers world x y rest
    else
      match hitLayer world x y layer.reverse with
      | none => none
      | some (some found) => some (some found)
      | some none => hitLayers world x y rest

/-- The hit test of `GUIMgr::handleMouse`: `window_at_cursor` for the point `(x, y)`. -/
def windowAtCursor (world : World) (mgr : GUIMgr) (x y : ℚ) : Option WindowPtr :=
  hitLayers world x y mgr.transform.children.reverse

/-- The tail of `GUIMgr::handleMouse`: deliver `event` to `target_window`, if any.
The deltas are `float` subtractions; the translation `event.x -= region.x()` converts
the `int` origin to `float` and subtracts in `float`. -/
def dispatch (handler : WindowId → MouseEvent → Bool) (mgr : GUIMgr) (event : MouseEvent)
    (target_window : WindowPtr) : EventResult :=
  match target_window with
  | some (id, w) =>
    let event1 : MouseEvent :=
      { event with dx := floatSub event.x mgr.last_x, dy := floatSub event.y mgr.last_y }
    let mgr1 : GUIMgr := { mgr with last_x := event1.x, last_y := event1.y }
    let event2 : MouseEvent :=
      { event1 with
        x := floatSub event1.x (intToFloat w.region.x)
        y := floatSub event1.y (intToFloat w.region.y) }
    { mgr := mgr1, dispatched := some (id, event2), consumed := handler id event2 }
  | none => { mgr := mgr, dispatched := none, consumed := false }

/-- The `canvas::MouseEvent` built at the top of `GUIMgr::handleMouse`, before
the deltas are filled in. -/
def mouseEvent (mgr : GUIMgr) (ea : GUIEventAdapter) : MouseEvent :=
  { type := ea.eventType
    x := eventX mgr ea
    y := eventY mgr ea
    dx := 0
    dy := 0
    button := ea.button
    state := ea.buttonMask
    mod := ea.modKeyMask
    scroll := ea.scrollingMotion }

/-- `GUIMgr::handleMouse`.  `none` is a fault in the hit test. -/
def handleMouse (handler : WindowId → MouseEvent → Bool) (world : World) (mgr : GUIMgr)
    (ea : GUIEventAdapter) : Option EventResult :=
  if mgr.transform.children.length = 0 then
    some { mgr := mgr, dispatched := none, consumed := false }
  else
    let event : MouseEvent := mouseEvent mgr ea
    match windowAtCursor world mgr event.x event.y with
    | none => none
    | some window_at_cursor =>
      match ea.eventType with
      | EventType.PUSH =>
        some (dispatch handler { mgr with last_push := window_at_cursor.map Prod.fst }
          event window_at_cursor)
      | EventType.SCROLL => some (dispatch handler mgr event window_at_cursor)
      | EventType.MOVE => some (dispatch handler mgr event window_at_cursor)
      | EventType.RELEASE =>
        some (dispatch handler { mgr with last_push := none } event
          (lockWindow world mgr.last_push))
      | EventType.DRAG =>
        some (dispatch handler mgr event (lockWindow world mgr.last_push))
      | _ => some { mgr := mgr, dispatched := none, consumed := false }

/-- `GUIMgr::handleEvent`. -/
def handleEvent (handler : WindowId → MouseEvent → Bool) (world : World) (mgr : GUIMgr)
    (ea : GUIEventAdapter) : Option EventResult :=
  match ea.eventType with
  | EventType.PUSH => handleMouse handler world mgr ea
  | EventType.RELEASE => handleMouse handler world mgr ea
  | EventType.DRAG => handleMouse handler world mgr ea
  | EventType.MOVE => handleMouse handler world mgr ea
  | EventType.SCROLL => handleMouse handler world mgr ea
  | EventType.RESIZE =>
    some { mgr := handleResize mgr ea.windowX ea.windowY ea.windowWidth ea.windowHeight
           dispatched := none
           consumed := true }
  | _ => some { mgr := mgr, dispatched := none, consumed := false }

/-! ## Predicates used in the statements -/

/-- Every node of the layer stack `children` refers to a live window: the state
in which the manager is kept by window destruction, which takes the window's node out
of its layer. -/
def layersLive (world : World) (children : List Layer) : Bool :=
  children.all fun layer =>
    layer.all fun n => (lockWindow world n.window).isSome

/-- The node refers to a live window whose region contains the point `(x, y)`. -/
def nodeHit (world : World) (x y : ℚ) (n : Node) : Bool :=
  match lockWindow world n.window with
  | some (_, w) => w.region.contains x y
  | none => false

/-- The event kinds that `GUIMgr::handleEvent` hands to `handleMouse`. -/
def isPointerEvent (t : EventType) : Bool :=
  t = EventType.PUSH || t = EventType.RELEASE || t = EventType.DRAG ||
  t = EventType.MOVE || t = EventType.SCROLL

/-- Every link of `placements` whose window is alive has that window showing `canvas`. -/
def linksAttached (world : World) (canvas : CanvasPtr) (placements : List WindowPlacement) :
    Prop :=
  ∀ L ∈ placements, ∀ id v, L.window = some id → world.window id = some v → v.canvas = canvas

/-- What a returned `handleMouse` has done: either nothing was dispatched and the
cursor position is unchanged, or the target was determined by the event kind and
received the event built by `dispatch`. -/
def MouseOutcome (world : World) (mgr : GUIMgr) (ea : GUIEventAdapter) (r : EventResult) :
    Prop :=
  (r.dispatched = none ∧ r.mgr.last_x = mgr.last_x ∧ r.mgr.last_y = mgr.last_y) ∨
  (∃ id w, world.window id = some w ∧
    r.dispatched = some (id, { mouseEvent mgr ea with
        dx := floatSub (eventX mgr ea) mgr.last_x
        dy := floatSub (eventY mgr ea) mgr.last_y
        x := floatSub (eventX mgr ea) (intToFloat w.region.x)
        y := floatSub (eventY mgr ea) (intToFloat w.region.y) }) ∧
    r.mgr.last_x = eventX mgr ea ∧ r.mgr.last_y = eventY mgr ea ∧
    (((ea.eventType = EventType.DRAG ∨ ea.eventType = EventType.RELEASE) ∧
        mgr.last_push = some id) ∨
      ((ea.eventType = EventType.PUSH ∨ ea.eventType = EventType.MOVE ∨
          ea.eventType = EventType.SCROLL) ∧
        windowAtCursor world mgr (eventX mgr ea) (eventY mgr ea) = some (some (id, w)))))

/-- The hit-test loop stops at this node: its window is gone (the read of the region
faults) or its region contains the point. -/
def nodeStops (world : World) (x y : ℚ) (n : Node) : Bool :=
  match lockWindow world n.window with
  | some (_, w) => w.region.contains x y
  | none => true

/-- Result of the hit test given the first node at which the loop stops, if any. -/
def stopResult (world : World) : Option Node → Option WindowPtr
  | none => some none
  | some n => (lockWindow world n.window).map some

/-- Entry in row `i`, column `j` of a matrix (0 where there is no such entry). -/
def matrixEntry (m : List (List ℚ)) (i j : Nat) : ℚ :=
  (m.getD i []).getD j 0

/-- Application of an `osg::Matrix` to a point the way OSG applies the matrix of a
`MatrixTransform` (`osg::Matrix::preMult`, `v * M`): the row vector `(x, y, z, 1)`
times the matrix, divided by the fourth component of the product. -/
def preMult (m : List (List ℚ)) (p : ℚ × ℚ × ℚ) : ℚ × ℚ × ℚ :=
  let d : ℚ := matrixEntry m 0 3 * p.1 + matrixEntry m 1 3 * p.2.1 +
    matrixEntry m 2 3 * p.2.2 + matrixEntry m 3 3
  ((matrixEntry m 0 0 * p.1 + matrixEntry m 1 0 * p.2.1 + matrixEntry m 2 0 * p.2.2 +
      matrixEntry m 3 0) / d,
   (matrixEntry m 0 1 * p.1 + matrixEntry m 1 1 * p.2.1 + matrixEntry m 2 1 * p.2.2 +
      matrixEntry m 3 1) / d,
   (matrixEntry m 0 2 * p.1 + matrixEntry m 1 2 * p.2.1 + matrixEntry m 2 2 * p.2.2 +
      matrixEntry m 3 2) / d)

/-- The windows matched by the loop of `addPlacement` from index `i` on, in order. -/
def matchedWindows (placement_index : Int) : Nat → List (Option WindowId) → List WindowId
  | _, [] => []
  | i, e :: rest =>
    if placement_index ≥ 0 ∧ castInt i ≠ placement_index then
      matchedWindows placement_index (i + 1) rest
    else
      match e with
      | none => matchedWindows placement_index (i + 1) rest
      | some id => id :: matchedWindows placement_index (i + 1) rest

/-- The world after `setCanvas(canvas)` on each of the windows `ids` in turn. -/
def attachAll (canvas : CanvasPtr) (ids : List WindowId) (world : World) : World :=
  ids.foldl (fun w id => w.setCanvas id canvas) world

/-! ## Sample objects -/

/-- A window covering `[0, 100) × [0, 100)`. -/
def sampleWindow : Window :=
  { region := ⟨0, 0, 100, 100⟩, layer := none, canvas := none }

/-- A world with the single window `sampleWindow` (identity 0) and two canvases. -/
def sampleWorld : World :=
  { windows := [some sampleWindow], canvases := [true, true] }

/-- An 800 × 600 manager whose layer 1 holds the node of window 0. -/
def sampleMgr : GUIMgr :=
  { transform := { children := [[], [⟨some 0⟩]], matrix := [], setMatrixCalls := 0 }
    width := 800
    height := 600
    last_push := none
    last_x := 0
    last_y := 0
    elements := [some 0] }

/-- An event of kind `t` at the normalised position `(nx, ny)`, y growing upwards. -/
def sampleEvent (t : EventType) (nx ny : ℚ) : GUIEventAdapter :=
  { eventType := t
    xNormalized := nx
    yNormalized := ny
    mouseYOrientation := MouseYOrientation.Y_INCREASING_UPWARDS
    button := 1
    buttonMask := 1
    modKeyMask := 0
    scrollingMotion := 0
    windowX := 0
    windowY := 0
    windowWidth := 800
    windowHeight := 600 }

/-- The press of the running example: pixel position `(13, 8.875)`. -/
def samplePress : GUIEventAdapter := sampleEvent EventType.PUSH (-31 / 32) (31 / 32)

/-- A far-away position of the running example: pixel position `(1000.5, 1049.5)`. -/
def sampleFar (t : EventType) : GUIEventAdapter := sampleEvent t (3 / 2) (-5 / 2)

/-- A window covering `[0, 50) × [0, 50)`. -/
def sampleWindowB : Window :=
  { region := ⟨0, 0, 50, 50⟩, layer := none, canvas := none }

/-- A window covering `[200, 220) × [200, 220)`. -/
def sampleWindowC : Window :=
  { region := ⟨200, 200, 20, 20⟩, layer := none, canvas := none }

/-- A world with three windows (identities 0, 1, 2) and two canvases. -/
def sampleWorld2 : World :=
  { windows := [some sampleWindow, some sampleWindowB, some sampleWindowC]
    canvases := [true, true] }

/-- Windows 0 and 1 share layer 0 (1 inserted last); window 2 is alone in layer 2. -/
def sampleMgr2 : GUIMgr :=
  { sampleMgr with
    transform := { sampleMgr.transform with children := [[⟨some 0⟩, ⟨some 1⟩], [], [⟨some 2⟩]] } }

/-- Window 0 in layer 0, window 1 in layer 2. -/
def sampleMgr3 : GUIMgr :=
  { sampleMgr with
    transform := { sampleMgr.transform with children := [[⟨some 0⟩], [], [⟨some 1⟩]] } }

/-- A world whose only window has been destroyed; its canvas is alive. -/
def sampleDeadWorld : World :=
  { windows := [none], canvases := [true] }

/-- A Move at pixel position `(209.875, 205.75)`, inside window 2 of `sampleWorld2`. -/
def sampleMoveC : GUIEventAdapter := sampleEvent EventType.MOVE (-61 / 128) (5 / 16)

/-- A Move whose normalised coordinates are both the `float` nearest to 0.1. -/
def sampleTenth : GUIEventAdapter :=
  sampleEvent EventType.MOVE (13421773 / 134217728) (13421773 / 134217728)

/-- A window covering the whole 800 × 600 viewport, with region origin (0, 0). -/
def sampleScreenWindow : Window :=
  { region := ⟨0, 0, 800, 600⟩, layer := none, canvas := none }

/-- A world whose only window (identity 0) is `sampleScreenWindow`. -/
def sampleScreenWorld : World :=
  { windows := [some sampleScreenWindow], canvases := [] }

/-- The sample manager after window 0 was captured and then destroyed: `_last_push`
still refers to it, its node is gone from the (non-empty) layer stack. -/
def sampleMgrCaptured : GUIMgr :=
  { sampleMgr with
    last_push := some 0
    transform := { sampleMgr.transform with children := [[], []] } }

/-- A registry with an empty slot between windows 0 and 1. -/
def sampleMgr4 : GUIMgr :=
  { sampleMgr with elements := [some 0, none, some 1] }

/-! ## Hit test: characterisation -/

theorem layersLive_iff (world : World) (children : List Layer) :
    layersLive world children = true ↔
      ∀ l ∈ children, ∀ n ∈ l, (lockWindow world n.window).isSome = true := by
  simp [layersLive, List.all_eq_true]

theorem nodeHit_lock {world : World} {x y : ℚ} {n : Node} (h : nodeHit world x y n = true) :
    ∃ id w, lockWindow world n.window = some (id, w) ∧ w.region.contains x y = true := by
  unfold nodeHit at h
  cases hl : lockWindow world n.window with
  | none => simp [hl] at h
  | some p =>
    obtain ⟨id, w⟩ := p
    simp [hl] at h
    exact ⟨id, w, rfl, h⟩

theorem hitLayer_eq_find (world : World) (x y : ℚ) (nodes : List Node)
    (h : ∀ n ∈ nodes, (lockWindow world n.window).isSome = true) :
    hitLayer world x y nodes =
      some ((nodes.find? (nodeHit world x y)).bind fun n => lockWindow world n.window) := by
  induction nodes with
  | nil => simp [hitLayer]
  | cons n rest ih =>
    have hn := h n (List.mem_cons_self _ _)
    have hrest := ih (fun m hm => h m (List.mem_cons_of_mem _ hm))
    cases hl : lockWindow world n.window with
    | none => simp [hl] at hn
    | some p =>
      obtain ⟨id, w⟩ := p
      by_cases hc : w.region.contains x y = true
      · simp [hitLayer, hl, hc, List.find?_cons, nodeHit]
      · simp [hitLayer, hl, hc, List.find?_cons, nodeHit, hrest]

theorem hitLayers_eq_find (world : World) (x y : ℚ) (layers : List Layer)
    (h : ∀ l ∈ layers, ∀ n ∈ l, (lockWindow world n.window).isSome = true) :
    hitLayers world x y layers =
      some (((layers.map List.reverse).flatten.find? (nodeHit world x y)).bind
        fun n => lockWindow world n.window) := by
  induction layers with
  | nil => simp [hitLayers]
  | cons l rest ih =>
    have hrest := ih (fun m hm => h m (List.mem_cons_of_mem _ hm))
    have hl : ∀ n ∈ l.reverse, (lockWindow world n.window).isSome = true := by
      intro n hn
      exact h l (List.mem_cons_self _ _) n (List.mem_reverse.mp hn)
    by_cases hlen : l.length = 0
    · have : l = [] := List.length_eq_zero.mp hlen
      subst this
      simp [hitLayers, hrest]
    · rw [hitLayers, if_neg hlen, hitLayer_eq_find world x y l.reverse hl]
      simp only [List.map_cons, List.flatten_cons, List.find?_append]
      cases hf : l.reverse.find? (nodeHit world x y) with
      | none => simp [hrest]
      | some n =>
        obtain ⟨id, w, hlock, -⟩ := nodeHit_lock (List.find?_some hf)
        simp [hlock]

theorem windowAtCursor_eq_find (world : World) (mgr : GUIMgr) (x y : ℚ)
    (h : layersLive world mgr.transform.children = true) :
    windowAtCursor world mgr x y =
      some ((mgr.transform.children.flatten.reverse.find? (nodeHit world x y)).bind
        fun n => lockWindow world n.window) := by
  rw [layersLive_iff] at h
  unfold windowAtCursor
  rw [hitLayers_eq_find world x y _ (fun l hl => h l (List.mem_reverse.mp hl)),
    List.reverse_flatten, List.map_reverse]

theorem find_reverse_last {α : Type} (p : α → Bool) (pre post : List α) (n : α)
    (hn : p n = true) (hpost : ∀ m ∈ post, p m = false) :
    (pre ++ n :: post).reverse.find? p = some n := by
  have hnone : post.reverse.find? p = none := by
    rw [List.find?_eq_none]
    intro m hm
    simp [hpost m (List.mem_reverse.mp hm)]
  simp [List.find?_append, hnone, hn]

theorem exists_last_sat {α : Type} (p : α → Bool) (l : List α) (a : α) (ha : a ∈ l)
    (hp : p a = true) :
    ∃ pre n post, l = pre ++ n :: post ∧ p n = true ∧ ∀ m ∈ post, p m = false := by
  have hsome : (l.reverse.find? p).isSome = true := by
    rw [List.find?_isSome]
    exact ⟨a, List.mem_reverse.mpr ha, hp⟩
  obtain ⟨n, hfind⟩ := Option.isSome_iff_exists.mp hsome
  obtain ⟨hpn, as, bs, hsplit, hnot⟩ := List.find?_eq_some.mp hfind
  refine ⟨bs.reverse, n, as.reverse, ?_, hpn, ?_⟩
  · have := congrArg List.reverse hsplit
    simpa using this
  · intro m hm
    have := hnot m (List.mem_reverse.mp hm)
    simpa using this

theorem windowAtCursor_of_split (world : World) (mgr : GUIMgr) (x y : ℚ)
    (lower higher : List Layer) (pre post : List Node) (n : Node)
    (hlive : layersLive world mgr.transform.children = true)
    (hstack : mgr.transform.children = lower ++ (pre ++ n :: post) :: higher)
    (hhigher : ∀ l ∈ higher, ∀ m ∈ l, nodeHit world x y m = false)
    (hn : nodeHit world x y n = true)
    (hpost : ∀ m ∈ post, nodeHit world x y m = false) :
    ∃ id w, lockWindow world n.window = some (id, w) ∧ w.region.contains x y = true ∧
      windowAtCursor world mgr x y = some (some (id, w)) := by
  obtain ⟨id, w, hlock, hc⟩ := nodeHit_lock hn
  refine ⟨id, w, hlock, hc, ?_⟩
  rw [windowAtCursor_eq_find world mgr x y hlive, hstack]
  have hhi : higher.flatten.reverse.find? (nodeHit world x y) = none := by
    rw [List.find?_eq_none]
    intro m hm
    obtain ⟨l, hl, hml⟩ := List.mem_flatten.mp (List.mem_reverse.mp hm)
    simp [hhigher l hl m hml]
  have hmid := find_reverse_last (nodeHit world x y) pre post n hn hpost
  have hsplit : (lower ++ (pre ++ n :: post) :: higher).flatten.reverse =
      higher.flatten.reverse ++ ((pre ++ n :: post).reverse ++ lower.flatten.reverse) := by
    simp
  rw [hsplit, List.find?_append, List.find?_append, hhi, hmid]
  simp [hlock]

/-! ## Pointer routing: capture -/

theorem children_ne_of_hit {world : World} {mgr : GUIMgr} {x y : ℚ} {p : WindowId × Window}
    (h : windowAtCursor world mgr x y = some (some p)) :
    mgr.transform.children.length ≠ 0 := by
  intro h0
  have : mgr.transform.children = [] := List.length_eq_zero.mp h0
  simp [windowAtCursor, this, hitLayers] at h

theorem windowAtCursor_congr (world : World) (mgr mgr2 : GUIMgr) (x y : ℚ)
    (h : mgr2.transform = mgr.transform) :
    windowAtCursor world mgr2 x y = windowAtCursor world mgr x y := by
  simp [windowAtCursor, h]

theorem lockWindow_alive {world : World} {id : WindowId} {w : Window}
    (h : world.window id = some w) : lockWindow world (some id) = some (id, w) := by
  simp [lockWindow, h]

theorem lockWindow_fst {world : World} {p : WindowWeakPtr} {id : WindowId} {w : Window}
    (h : lockWindow world p = some (id, w)) : p = some id ∧ world.window id = some w := by
  cases p with
  | none => simp [lockWindow] at h
  | some j =>
    simp only [lockWindow] at h
    cases hw : world.window j with
    | none => simp [hw] at h
    | some v =>
      simp [hw] at h
      obtain ⟨rfl, rfl⟩ := h
      exact ⟨rfl, hw⟩

theorem dispatch_transform (handler : WindowId → MouseEvent → Bool) (mgr : GUIMgr)
    (event : MouseEvent) (t : WindowPtr) :
    (dispatch handler mgr event t).mgr.transform = mgr.transform := by
  cases t <;> rfl

theorem dispatch_last_push (handler : WindowId → MouseEvent → Bool) (mgr : GUIMgr)
    (event : MouseEvent) (t : WindowPtr) :
    (dispatch handler mgr event t).mgr.last_push = mgr.last_push := by
  cases t <;> rfl

theorem dispatch_target (handler : WindowId → MouseEvent → Bool) (mgr : GUIMgr)
    (event : MouseEvent) (t : WindowPtr) :
    (dispatch handler mgr event t).dispatched.map Prod.fst = t.map Prod.fst := by
  cases t <;> rfl

theorem dispatch_consumed (handler : WindowId → MouseEvent → Bool) (mgr : GUIMgr)
    (event : MouseEvent) (t : WindowPtr) :
    (dispatch handler mgr event t).consumed =
      match (dispatch handler mgr event t).dispatched with
      | some (id, ev) => handler id ev
      | none => false := by
  cases t <;> rfl

/-- With a non-empty layer stack and a hit test that ran through, `handleMouse`
is the switch over the event kind followed by the dispatch. -/
theorem handleMouse_of_hit (handler : WindowId → MouseEvent → Bool) (world : World)
    (mgr : GUIMgr) (ea : GUIEventAdapter) (hit : WindowPtr)
    (hne : mgr.transform.children.length ≠ 0)
    (hhit : windowAtCursor world mgr (eventX mgr ea) (eventY mgr ea) = some hit) :
    handleMouse handler world mgr ea =
      match ea.eventType with
      | EventType.PUSH =>
        some (dispatch handler { mgr with last_push := hit.map Prod.fst } (mouseEvent mgr ea) hit)
      | EventType.SCROLL => some (dispatch handler mgr (mouseEvent mgr ea) hit)
      | EventType.MOVE => some (dispatch handler mgr (mouseEvent mgr ea) hit)
      | EventType.RELEASE =>
        some (dispatch handler { mgr with last_push := none } (mouseEvent mgr ea)
          (lockWindow world mgr.last_push))
      | EventType.DRAG =>
        some (dispatch handler mgr (mouseEvent mgr ea) (lockWindow world mgr.last_push))
      | _ => some { mgr := mgr, dispatched := none, consumed := false } := by
  have hx : (mouseEvent mgr ea).x = eventX mgr ea := rfl
  have hy : (mouseEvent mgr ea).y = eventY mgr ea := rfl
  simp only [handleMouse, if_neg hne, hx, hy, hhit]

/-- C1 (capture persistence on Drag): after a Press whose hit test finds window `W`,
a Drag event at any cursor position, in any later world in which `W` is still alive
(and every node of the layer stack still refers to a live window), is dispatched to
`W`, and the capture state is still `W` afterwards. -/
theorem capture_persists_on_drag (handler : WindowId → MouseEvent → Bool)
    (world world2 : World) (mgr : GUIMgr) (press drag : GUIEventAdapter)
    (W : WindowId) (w w2 : Window)
    (hpress : press.eventType = EventType.PUSH)
    (hdrag : drag.eventType = EventType.DRAG)
    (hhit : windowAtCursor world mgr (eventX mgr press) (eventY mgr press) = some (some (W, w)))
    (halive : world2.window W = some w2)
    (hlive : layersLive world2 mgr.transform.children = true) :
    ∃ r1 r2 ev, handleMouse handler world mgr press = some r1 ∧
      handleMouse handler world2 r1.mgr drag = some r2 ∧
      r2.dispatched = some (W, ev) ∧ r2.mgr.last_push = some W := by
  have hne := children_ne_of_hit hhit
  have h1 := handleMouse_of_hit handler world mgr press _ hne hhit
  simp only [hpress] at h1
  generalize hr1 : dispatch handler { mgr with last_push := Option.map Prod.fst (some (W, w)) }
    (mouseEvent mgr press) (some (W, w)) = r1 at h1
  have ht : r1.mgr.transform = mgr.transform := by rw [← hr1, dispatch_transform]
  have hp : r1.mgr.last_push = some W := by rw [← hr1, dispatch_last_push]; rfl
  have hne2 : r1.mgr.transform.children.length ≠ 0 := by rw [ht]; exact hne
  have hlive2 : layersLive world2 r1.mgr.transform.children = true := by rw [ht]; exact hlive
  have h2 := handleMouse_of_hit handler world2 r1.mgr drag _ hne2
    (windowAtCursor_eq_find world2 r1.mgr _ _ hlive2)
  simp only [hdrag, hp, lockWindow_alive halive] at h2
  exact ⟨r1, _, _, h1, h2, rfl, by rw [dispatch_last_push, hp]⟩

/-- Pixel positions of the sample events: the press is at (13, 8.875), the far
events are at (1000.5, 1049.5). -/
theorem sample_positions :
    eventX sampleMgr samplePress = 13 ∧ eventY sampleMgr samplePress = 71 / 8 ∧
    eventX sampleMgr (sampleFar EventType.DRAG) = 2001 / 2 ∧
    eventY sampleMgr (sampleFar EventType.DRAG) = 2099 / 2 := by
  refine ⟨?_, ?_, ?_, ?_⟩ <;> decide!

/-- The sample press hits window 0. -/
theorem samplePress_hit :
    windowAtCursor sampleWorld sampleMgr (eventX sampleMgr samplePress)
      (eventY sampleMgr samplePress) = some (some (0, sampleWindow)) := by
  rw [sample_positions.1, sample_positions.2.1]
  simp [windowAtCursor, sampleMgr, hitLayers, hitLayer, lockWindow, World.window, sampleWorld,
    sampleWindow, Region.contains]
  norm_num

/-- Instance of C1: press at pixel (13, 8.875) inside window 0, then drag to
(1000.5, 1049.5). -/
theorem capture_persists_on_drag_witness :
    ∃ r1 r2 ev, handleMouse (fun _ _ => true) sampleWorld sampleMgr samplePress = some r1 ∧
      handleMouse (fun _ _ => true) sampleWorld r1.mgr (sampleFar EventType.DRAG) = some r2 ∧
      r2.dispatched = some (0, ev) ∧ r2.mgr.last_push = some 0 :=
  capture_persists_on_drag (fun _ _ => true) sampleWorld sampleWorld sampleMgr samplePress
    (sampleFar EventType.DRAG) 0 sampleWindow sampleWindow rfl rfl samplePress_hit rfl
    (by decide)

theorem handleMouse_total (handler : WindowId → MouseEvent → Bool) (world : World)
    (mgr : GUIMgr) (ea : GUIEventAdapter)
    (hlive : layersLive world mgr.transform.children = true) :
    ∃ r, handleMouse handler world mgr ea = some r ∧
      r.mgr.transform = mgr.transform ∧
      r.consumed = (match r.dispatched with
        | some (id, ev) => handler id ev
        | none => false) := by
  by_cases hne : mgr.transform.children.length = 0
  · exact ⟨{ mgr := mgr, dispatched := none, consumed := false },
      by simp [handleMouse, hne], rfl, rfl⟩
  · have h := handleMouse_of_hit handler world mgr ea _ hne
      (windowAtCursor_eq_find world mgr _ _ hlive)
    rw [h]
    cases ea.eventType <;>
      first
      | exact ⟨_, rfl, rfl, rfl⟩
      | exact ⟨_, rfl, dispatch_transform _ _ _ _, dispatch_consumed _ _ _ _⟩

/-- C2 (capture release): after a Press whose hit test finds window `W`, a Release
event at any cursor position (with `W` still alive) is dispatched to `W` and leaves the
capture state empty; a following Drag or Release then has no target, and a following
Move goes to the window found by the fresh hit test. -/
theorem capture_cleared_on_release (handler : WindowId → MouseEvent → Bool)
    (world world2 world3 : World) (mgr : GUIMgr) (press release next : GUIEventAdapter)
    (W : WindowId) (w w2 : Window)
    (hpress : press.eventType = EventType.PUSH)
    (hrelease : release.eventType = EventType.RELEASE)
    (hhit : windowAtCursor world mgr (eventX mgr press) (eventY mgr press) = some (some (W, w)))
    (halive : world2.window W = some w2)
    (hlive2 : layersLive world2 mgr.transform.children = true)
    (hlive3 : layersLive world3 mgr.transform.children = true) :
    ∃ r1 r2 r3 ev, handleMouse handler world mgr press = some r1 ∧
      handleMouse handler world2 r1.mgr release = some r2 ∧
      r2.dispatched = some (W, ev) ∧ r2.mgr.last_push = none ∧
      handleMouse handler world3 r2.mgr next = some r3 ∧
      (next.eventType = EventType.DRAG ∨ next.eventType = EventType.RELEASE →
        r3.dispatched = none ∧ r3.consumed = false) ∧
      (next.eventType = EventType.MOVE →
        ∃ hit, windowAtCursor world3 r2.mgr (eventX r2.mgr next) (eventY r2.mgr next) = some hit ∧
          r3.dispatched.map Prod.fst = hit.map Prod.fst) := by
  have hne := children_ne_of_hit hhit
  have h1 := handleMouse_of_hit handler world mgr press _ hne hhit
  simp only [hpress] at h1
  generalize hr1 : dispatch handler { mgr with last_push := Option.map Prod.fst (some (W, w)) }
    (mouseEvent mgr press) (some (W, w)) = r1 at h1
  have ht : r1.mgr.transform = mgr.transform := by rw [← hr1, dispatch_transform]
  have hp : r1.mgr.last_push = some W := by rw [← hr1, dispatch_last_push]; rfl
  have hne2 : r1.mgr.transform.children.length ≠ 0 := by rw [ht]; exact hne
  have hlive2' : layersLive world2 r1.mgr.transform.children = true := by rw [ht]; exact hlive2
  have h2 := handleMouse_of_hit handler world2 r1.mgr release _ hne2
    (windowAtCursor_eq_find world2 r1.mgr _ _ hlive2')
  simp only [hrelease, hp, lockWindow_alive halive] at h2
  generalize hr2 : dispatch handler { r1.mgr with last_push := none }
    (mouseEvent r1.mgr release) (some (W, w2)) = r2 at h2
  have hd2 : ∃ ev, r2.dispatched = some (W, ev) := by rw [← hr2]; exact ⟨_, rfl⟩
  obtain ⟨ev, hd2⟩ := hd2
  have ht2 : r2.mgr.transform = mgr.transform := by rw [← hr2, dispatch_transform, ← ht]
  have hp2 : r2.mgr.last_push = none := by rw [← hr2, dispatch_last_push]
  have hne3 : r2.mgr.transform.children.length ≠ 0 := by rw [ht2]; exact hne
  have hlive3' : layersLive world3 r2.mgr.transform.children = true := by rw [ht2]; exact hlive3
  have hw3 := windowAtCursor_eq_find world3 r2.mgr (eventX r2.mgr next) (eventY r2.mgr next) hlive3'
  have h3 := handleMouse_of_hit handler world3 r2.mgr next _ hne3 hw3
  have hnone : lockWindow world3 r2.mgr.last_push = none := by rw [hp2]; rfl
  obtain ⟨r3, hr3, -, -⟩ := handleMouse_total handler world3 r2.mgr next hlive3'
  rw [hr3] at h3
  refine ⟨r1, r2, r3, ev, h1, h2, hd2, hp2, hr3, ?_, ?_⟩
  · rintro (hk | hk) <;> simp only [hk, hnone, Option.some.injEq] at h3 <;> subst h3 <;>
      exact ⟨rfl, rfl⟩
  · intro hk
    refine ⟨_, hw3, ?_⟩
    simp only [hk, Option.some.injEq] at h3
    subst h3
    exact dispatch_target _ _ _ _

/-- Instance of C2: press at (13, 8.875), release at (1000.5, 1049.5), then a drag. -/
theorem capture_cleared_on_release_witness :
    ∃ r1 r2 r3 ev, handleMouse (fun _ _ => true) sampleWorld sampleMgr samplePress = some r1 ∧
      handleMouse (fun _ _ => true) sampleWorld r1.mgr (sampleFar EventType.RELEASE) = some r2 ∧
      r2.dispatched = some (0, ev) ∧ r2.mgr.last_push = none ∧
      handleMouse (fun _ _ => true) sampleWorld r2.mgr (sampleFar EventType.DRAG) = some r3 ∧
      r3.dispatched = none ∧ r3.consumed = false := by
  obtain ⟨r1, r2, r3, ev, h1, h2, h3, h4, h5, h6, -⟩ :=
    capture_cleared_on_release (fun _ _ => true) sampleWorld sampleWorld sampleWorld sampleMgr
      samplePress (sampleFar EventType.RELEASE) (sampleFar EventType.DRAG) 0 sampleWindow
      sampleWindow rfl rfl samplePress_hit rfl (by decide) (by decide)
  exact ⟨r1, r2, r3, ev, h1, h2, h3, h4, h5, h6 (Or.inl rfl)⟩

/-- C3 (hit-test ordering within a layer): if no node of a higher layer contains the
point and two nodes `A` and `B` of one layer do, `B` inserted after `A` (and `A` not
inserted again later), then the hit test returns the window of the last-inserted node
of that layer that contains the point; that node is `B` or was inserted after `B`,
and the window returned is not the one of `A`. -/
theorem hit_test_last_inserted_wins (world : World) (mgr : GUIMgr) (x y : ℚ)
    (lower higher : List Layer) (before mid after : List Node) (A B : Node)
    (hlive : layersLive world mgr.transform.children = true)
    (hstack : mgr.transform.children = lower ++ (before ++ A :: (mid ++ B :: after)) :: higher)
    (hhigher : ∀ l ∈ higher, ∀ m ∈ l, nodeHit world x y m = false)
    (hA : nodeHit world x y A = true)
    (hB : nodeHit world x y B = true)
    (hdistinct : A ∉ mid ++ B :: after) :
    ∃ pre n post id w, B :: after = pre ++ n :: post ∧
      nodeHit world x y n = true ∧ (∀ m ∈ post, nodeHit world x y m = false) ∧
      lockWindow world n.window = some (id, w) ∧
      windowAtCursor world mgr x y = some (some (id, w)) ∧
      A.window ≠ some id ∧
      (∃ idA wA, lockWindow world A.window = some (idA, wA) ∧
        windowAtCursor world mgr x y ≠ some (some (idA, wA))) := by
  obtain ⟨pre, n, post, hsplit, hn, hpost⟩ :=
    exists_last_sat (nodeHit world x y) (B :: after) B (List.mem_cons_self _ _) hB
  have hstack2 : mgr.transform.children =
      lower ++ ((before ++ A :: (mid ++ pre)) ++ n :: post) :: higher := by
    rw [hstack, hsplit]; simp
  obtain ⟨id, w, hlock, -, hwin⟩ :=
    windowAtCursor_of_split world mgr x y lower higher _ post n hlive hstack2 hhigher hn hpost
  have hnA : n ≠ A := by
    rintro rfl
    apply hdistinct
    have : n ∈ B :: after := by rw [hsplit]; simp
    exact List.mem_append_right _ this
  have hAid : A.window ≠ some id := by
    intro hA2
    apply hnA
    have := (lockWindow_fst hlock).1
    cases n; cases A
    simp_all
  obtain ⟨idA, wA, hlockA, -⟩ := nodeHit_lock hA
  refine ⟨pre, n, post, id, w, hsplit, hn, hpost, hlock, hwin, hAid, idA, wA, hlockA, ?_⟩
  rw [hwin]
  intro heq
  simp only [Option.some.injEq, Prod.mk.injEq] at heq
  exact hAid (heq.1 ▸ (lockWindow_fst hlockA).1)

/-- C4 (layer precedence): if some node of a layer contains the point and no node of
any higher layer does, the hit test returns the window of a node of that layer whose
region contains the point, whatever lies in the lower layers and in whatever order
the nodes were inserted. -/
theorem hit_test_highest_layer_wins (world : World) (mgr : GUIMgr) (x y : ℚ)
    (lower higher : List Layer) (layer : Layer) (n : Node)
    (hlive : layersLive world mgr.transform.children = true)
    (hstack : mgr.transform.children = lower ++ layer :: higher)
    (hn : n ∈ layer)
    (hhit : nodeHit world x y n = true)
    (hhigher : ∀ l ∈ higher, ∀ m ∈ l, nodeHit world x y m = false) :
    ∃ m id w, m ∈ layer ∧ lockWindow world m.window = some (id, w) ∧
      w.region.contains x y = true ∧
      windowAtCursor world mgr x y = some (some (id, w)) := by
  obtain ⟨pre, m, post, hsplit, hm, hpost⟩ := exists_last_sat (nodeHit world x y) layer n hn hhit
  subst hsplit
  obtain ⟨id, w, hlock, hc, hwin⟩ :=
    windowAtCursor_of_split world mgr x y lower higher pre post m hlive hstack hhigher hm hpost
  exact ⟨m, id, w, by simp, hlock, hc, hwin⟩

/-- C5 as amended (consumed return contract): on a layer stack whose nodes are live,
`handleEvent` returns, and it returns true iff the event is a Resize, or it is a
pointer event that was handed to a target window whose handler returned true. -/
theorem handleEvent_consumed_iff (handler : WindowId → MouseEvent → Bool) (world : World)
    (mgr : GUIMgr) (ea : GUIEventAdapter)
    (hlive : layersLive world mgr.transform.children = true) :
    ∃ r, handleEvent handler world mgr ea = some r ∧
      (r.consumed = true ↔
        (ea.eventType = EventType.RESIZE ∨
          (isPointerEvent ea.eventType = true ∧
            ∃ id ev, r.dispatched = some (id, ev) ∧ handler id ev = true))) := by
  obtain ⟨r, hr, -, hc⟩ := handleMouse_total handler world mgr ea hlive
  have hcons : r.consumed = true ↔ ∃ id ev, r.dispatched = some (id, ev) ∧ handler id ev = true := by
    rw [hc]
    cases r.dispatched with
    | none => simp
    | some p =>
      obtain ⟨id, ev⟩ := p
      constructor
      · intro h
        exact ⟨id, ev, rfl, h⟩
      · rintro ⟨id2, ev2, heq, h⟩
        simp only [Option.some.injEq, Prod.mk.injEq] at heq
        rw [heq.1, heq.2]
        exact h
  cases hk : ea.eventType <;> simp only [handleEvent, hk] <;>
    first
    | exact ⟨r, hr, by simp [isPointerEvent, hcons]⟩
    | exact ⟨_, rfl, by simp [isPointerEvent]⟩

/-! ## Placement links -/

theorem window_setCanvas (world : World) (id j : WindowId) (c : CanvasPtr) :
    (world.setCanvas id c).window j =
      if j = id then (world.window id).map (fun w => { w with canvas := c })
      else world.window j := by
  unfold World.setCanvas
  cases hw : world.window id with
  | none =>
    by_cases hj : j = id
    · subst hj; simp [hw]
    · simp [hj]
  | some w =>
    have hlt : id < world.windows.length := by
      unfold World.window at hw
      by_contra hge
      have : world.windows[id]? = none := List.getElem?_eq_none (Nat.le_of_not_lt hge)
      simp [this] at hw
    by_cases hj : j = id
    · subst hj
      simp [World.window, List.getElem?_set, hlt]
    · have hji : id ≠ j := fun h => hj h.symm
      simp [World.window, hj, List.getElem?_set_ne hji]

theorem canvases_setCanvas (world : World) (id : WindowId) (c : CanvasPtr) :
    (world.setCanvas id c).canvases = world.canvases := by
  unfold World.setCanvas
  cases world.window id <;> rfl

theorem lockCanvas_setCanvas (world : World) (id : WindowId) (c : CanvasPtr) (p : CanvasWeakPtr) :
    lockCanvas (world.setCanvas id c) p = lockCanvas world p := by
  cases p with
  | none => rfl
  | some k => simp [lockCanvas, World.canvasAlive, canvases_setCanvas]

theorem lockCanvas_eq_some {world : World} {p : CanvasWeakPtr} {c : CanvasId}
    (h : lockCanvas world p = some c) : p = some c := by
  cases p with
  | none => simp [lockCanvas] at h
  | some k =>
    simp only [lockCanvas] at h
    split at h
    · simpa using h
    · simp at h

theorem addPlacementLoop_attached (placement_index : Int) (canvas : CanvasPtr)
    (elements : List (Option WindowId)) :
    ∀ (i : Nat) (world : World) (placements : List WindowPlacement),
      linksAttached world canvas placements →
      linksAttached (addPlacementLoop placement_index canvas i elements world placements).1 canvas
        (addPlacementLoop placement_index canvas i elements world placements).2 := by
  induction elements with
  | nil => intro i world placements h; simpa [addPlacementLoop] using h
  | cons e rest ih =>
    intro i world placements h
    unfold addPlacementLoop
    split
    · exact ih _ _ _ h
    · cases e with
      | none => exact ih _ _ _ h
      | some id =>
        apply ih
        intro L hL j v hj hv
        rw [window_setCanvas] at hv
        by_cases hji : j = id
        · subst hji
          simp only [if_true] at hv
          cases hw : world.window j with
          | none => simp [hw] at hv
          | some u =>
            simp [hw] at hv
            rw [← hv]
        · simp only [if_neg hji] at hv
          rcases List.mem_append.mp hL with hold | hnew
          · exact h L hold j v hj hv
          · simp only [List.mem_singleton] at hnew
            subst hnew
            simp at hj
            exact absurd hj.symm hji

theorem addPlacementLoop_alive (placement_index : Int) (canvas : CanvasPtr)
    (elements : List (Option WindowId)) :
    ∀ (i : Nat) (world : World) (placements : List WindowPlacement) (j : WindowId),
      ((addPlacementLoop placement_index canvas i elements world placements).1.window j).isSome =
        (world.window j).isSome := by
  induction elements with
  | nil => intro i world placements j; simp [addPlacementLoop]
  | cons e rest ih =>
    intro i world placements j
    unfold addPlacementLoop
    split
    · exact ih _ _ _ _
    · cases e with
      | none => exact ih _ _ _ _
      | some id =>
        simp only
        rw [ih, window_setCanvas]
        by_cases hji : j = id
        · subst hji; simp
        · simp [hji]

theorem destroy_of_cond (world : World) (p : WindowPlacement) (id : WindowId) (v : Window)
    (c : CanvasId) (hw : lockWindow world p.window = some (id, v))
    (hc : lockCanvas world p.canvas = some c) (hv : lockCanvas world v.canvas = some c) :
    WindowPlacement.destroy world p = world.setCanvas id none := by
  simp [WindowPlacement.destroy, hw, hc, hv]

theorem destroy_of_not_cond (world : World) (p : WindowPlacement)
    (h : ¬ ∃ id v c, lockWindow world p.window = some (id, v) ∧
      lockCanvas world p.canvas = some c ∧ lockCanvas world v.canvas = some c) :
    WindowPlacement.destroy world p = world := by
  unfold WindowPlacement.destroy
  cases hw : lockWindow world p.window with
  | none => rfl
  | some q =>
    obtain ⟨id, v⟩ := q
    cases hc : lockCanvas world p.canvas with
    | none => rfl
    | some c =>
      simp only
      split
      · rename_i heq
        exact absurd ⟨id, v, c, hw, hc, heq.symm⟩ h
      · rfl

theorem addPlacement_alive (world : World) (mgr : GUIMgr) (index : Option Int)
    (canvas : CanvasPtr) (j : WindowId) :
    ((addPlacement world mgr index canvas).1.window j).isSome = (world.window j).isSome :=
  addPlacementLoop_alive _ _ _ _ _ _ _

theorem addPlacement_attached (world : World) (mgr : GUIMgr) (index : Option Int)
    (canvas : CanvasPtr) :
    linksAttached (addPlacement world mgr index canvas).1 canvas
      (addPlacement world mgr index canvas).2 :=
  addPlacementLoop_attached _ _ _ _ _ _ (by intro L hL; simp at hL)

/-- C6 (re-attach safety): destroying a link turns its window's attached canvas
from set to empty iff the window and the link's canvas are both alive and the window's
attached canvas is the link's canvas, and otherwise changes nothing; in particular,
after `addPlacement` has attached `C` to window `W` (link `⟨W, C⟩`) and then a
different canvas `C2` to `W`, destroying the first link leaves `W` attached to `C2`. -/
theorem placement_destroy_clears_iff (world : World) (p : WindowPlacement) (mgr : GUIMgr)
    (index index2 : Option Int) (C C2 : CanvasPtr) (W : WindowId) (w : Window)
    (hW : world.window W = some w)
    (hC : C ≠ C2)
    (hL1 : (⟨some W, C⟩ : WindowPlacement) ∈ (addPlacement world mgr index C).2)
    (hL2 : (⟨some W, C2⟩ : WindowPlacement) ∈
      (addPlacement (addPlacement world mgr index C).1 mgr index2 C2).2) :
    ((∃ id v c, lockWindow world p.window = some (id, v) ∧
        lockCanvas world p.canvas = some c ∧ lockCanvas world v.canvas = some c) ↔
      (∃ id v, lockWindow world p.window = some (id, v) ∧ v.canvas ≠ none ∧
        (WindowPlacement.destroy world p).window id = some { v with canvas := none })) ∧
    ((¬ ∃ id v c, lockWindow world p.window = some (id, v) ∧
        lockCanvas world p.canvas = some c ∧ lockCanvas world v.canvas = some c) →
      WindowPlacement.destroy world p = world) ∧
    (∃ w1 w2, (addPlacement world mgr index C).1.window W = some w1 ∧ w1.canvas = C ∧
      (addPlacement (addPlacement world mgr index C).1 mgr index2 C2).1.window W = some w2 ∧
      w2.canvas = C2 ∧
      (WindowPlacement.destroy (addPlacement (addPlacement world mgr index C).1 mgr index2 C2).1
        ⟨some W, C⟩).window W = some w2) := by
  refine ⟨⟨?_, ?_⟩, destroy_of_not_cond world p, ?_⟩
  · rintro ⟨id, v, c, hw, hc, hv⟩
    refine ⟨id, v, hw, ?_, ?_⟩
    · intro hnone
      rw [hnone] at hv
      simp [lockCanvas] at hv
    · rw [destroy_of_cond world p id v c hw hc hv, window_setCanvas]
      simp [(lockWindow_fst hw).2]
  · rintro ⟨id, v, hw, hne, hafter⟩
    by_contra hcond
    rw [destroy_of_not_cond world p hcond, (lockWindow_fst hw).2] at hafter
    simp only [Option.some.injEq] at hafter
    apply hne
    rw [hafter]
  · have halive1 : ((addPlacement world mgr index C).1.window W).isSome = true := by
      rw [addPlacement_alive, hW]; rfl
    obtain ⟨w1, hw1⟩ := Option.isSome_iff_exists.mp halive1
    have halive2 : ((addPlacement (addPlacement world mgr index C).1 mgr index2 C2).1.window
        W).isSome = true := by
      rw [addPlacement_alive, hw1]; rfl
    obtain ⟨w2, hw2⟩ := Option.isSome_iff_exists.mp halive2
    have hattached1 : w1.canvas = C :=
      addPlacement_attached world mgr index C _ hL1 W w1 rfl hw1
    have hattached2 : w2.canvas = C2 :=
      addPlacement_attached (addPlacement world mgr index C).1 mgr index2 C2 _ hL2 W w2 rfl hw2
    refine ⟨w1, w2, hw1, hattached1, hw2, hattached2, ?_⟩
    rw [destroy_of_not_cond, hw2]
    rintro ⟨id, v, c, hlw, hlc, hlv⟩
    have hlw' := lockWindow_fst hlw
    simp only [Option.some.injEq] at hlw'
    obtain ⟨hid, hv⟩ := hlw'
    subst hid
    rw [hw2] at hv
    simp only [Option.some.injEq] at hv
    subst hv
    rw [hattached2] at hlv
    exact hC ((lockCanvas_eq_some hlc).trans (lockCanvas_eq_some hlv).symm)

/-- C7 (link teardown safety): if the window or the canvas of a link no longer
resolves to a live object, destroying the link leaves the whole world (every
surviving window, every canvas) unchanged. -/
theorem placement_destroy_dead_noop (world : World) (p : WindowPlacement)
    (h : lockWindow world p.window = none ∨ lockCanvas world p.canvas = none) :
    WindowPlacement.destroy world p = world := by
  apply destroy_of_not_cond
  rintro ⟨id, v, c, hw, hc, -⟩
  rcases h with h | h
  · rw [h] at hw; simp at hw
  · rw [h] at hc; simp at hc

/-! ## Window insertion and resize -/

theorem growLayers_eq (layer_index : Nat) :
    ∀ (m : Nat) (children : List Layer) (layer : Option Nat),
      layer_index + 1 - children.length = m → children.length ≤ layer_index →
      growLayers layer_index children layer =
        (children ++ List.replicate m [], some layer_index) := by
  intro m
  induction m with
  | zero => intro children layer hm hle; omega
  | succ m ih =>
    intro children layer hm hle
    rw [growLayers, if_pos hle]
    by_cases hnext : (children ++ [[]]).length ≤ layer_index
    · rw [ih (children ++ [[]]) _ (by simp; omega) hnext]
      simp [List.replicate_succ]
    · rw [growLayers, if_neg hnext]
      have hlen : children.length = layer_index := by simp at hnext; omega
      have hm0 : m = 0 := by omega
      subst hm0
      simp [hlen]

theorem addChild_length (ls : List Layer) (k : Nat) (n : Node) :
    (addChild ls k n).length = ls.length := by
  induction ls generalizing k with
  | nil => rfl
  | cons l ls ih => cases k <;> simp [addChild, ih]

theorem addChild_getElem? (ls : List Layer) (k : Nat) (n : Node) (i : Nat) :
    (addChild ls k n)[i]? = if i = k then ls[k]?.map (· ++ [n]) else ls[i]? := by
  induction ls generalizing k i with
  | nil => simp [addChild]
  | cons l ls ih =>
    cases k with
    | zero => cases i <;> simp [addChild]
    | succ k => cases i <;> simp [addChild, ih]

/-- The stack after `elementCreated`: grown to hold the layer, with the node appended. -/
theorem elementCreated_eq (mgr : GUIMgr) (id : WindowId) (window : Window) :
    elementCreated mgr id window =
      some { mgr with
        transform := { mgr.transform with
          children := addChild
            (mgr.transform.children ++ List.replicate
              ((max 0 (window.layer.getD 1)).toNat + 1 - mgr.transform.children.length) [])
            (max 0 (window.layer.getD 1)).toNat ⟨some id⟩ } } := by
  unfold elementCreated
  by_cases hlt : (max 0 (window.layer.getD 1)).toNat < mgr.transform.children.length
  · have h0 : (max 0 (window.layer.getD 1)).toNat + 1 - mgr.transform.children.length = 0 := by
      omega
    simp [hlt, h0]
  · have hle : mgr.transform.children.length ≤ (max 0 (window.layer.getD 1)).toNat := by omega
    simp only [if_neg hlt]
    rw [growLayers_eq _ _ _ _ rfl hle]

theorem grown_getElem? (children : List Layer) (m i : Nat) :
    (children ++ List.replicate m ([] : Layer))[i]? =
      if i < children.length + m then some (children.getD i []) else none := by
  by_cases hi : i < children.length
  · rw [List.getElem?_append_left hi]
    simp [hi, List.getD, show i < children.length + m by omega]
  · have hge : children.length ≤ i := Nat.le_of_not_lt hi
    rw [List.getElem?_append_right hge]
    by_cases hi2 : i < children.length + m
    · have : i - children.length < m := by omega
      simp [hi2, List.getD, List.getElem?_eq_none hge, List.getElem?_replicate, this]
    · have : ¬ i - children.length < m := by omega
      simp [hi2, List.getElem?_replicate, this]

/-- C8 (window insertion): `elementCreated` never fails; with `L` the configured layer
(1 when absent) and `k = max(0, L)`, the layer with index `k` of the resulting stack is
the previous content of that layer (empty if it did not exist) followed by the node of
the new window, which is therefore its last child; a negative `L` gives `k = 0`. -/
theorem elementCreated_appends_to_layer (mgr : GUIMgr) (id : WindowId) (window : Window) :
    ∃ (k : Nat) (mgr2 : GUIMgr) (layer : Layer),
      (k : Int) = max 0 (window.layer.getD 1) ∧
      (window.layer.getD 1 < 0 → k = 0) ∧
      elementCreated mgr id window = some mgr2 ∧
      mgr2.transform.children[k]? = some layer ∧
      layer = mgr.transform.children.getD k [] ++ [⟨some id⟩] ∧
      layer.getLast? = some ⟨some id⟩ := by
  refine ⟨(max 0 (window.layer.getD 1)).toNat, _, _, ?_, ?_, elementCreated_eq mgr id window,
    ?_, rfl, by simp⟩
  · exact Int.toNat_of_nonneg (le_max_left _ _)
  · intro hneg
    have : max 0 (window.layer.getD 1) = 0 := max_eq_left (le_of_lt hneg)
    rw [this]; rfl
  · simp only [addChild_getElem?, if_true, grown_getElem?]
    have hlt : (max 0 (window.layer.getD 1)).toNat < mgr.transform.children.length +
        ((max 0 (window.layer.getD 1)).toNat + 1 - mgr.transform.children.length) := by omega
    simp [hlt]

/-- C9 (layer growth): with `n` layers before and resolved layer index `k`,
`elementCreated` yields exactly `max n (k+1)` layers; every earlier layer other than
`k` is unchanged, layer `k` is its earlier content followed by the new node, and every
new layer other than `k` is empty. -/
theorem elementCreated_grows_monotonically (mgr : GUIMgr) (id : WindowId) (window : Window) :
    ∃ (k : Nat) (mgr2 : GUIMgr),
      (k : Int) = max 0 (window.layer.getD 1) ∧
      elementCreated mgr id window = some mgr2 ∧
      mgr2.transform.children.length = max mgr.transform.children.length (k + 1) ∧
      (∀ i, i < mgr.transform.children.length → i ≠ k →
        mgr2.transform.children[i]? = mgr.transform.children[i]?) ∧
      mgr2.transform.children[k]? = some (mgr.transform.children.getD k [] ++ [⟨some id⟩]) ∧
      (∀ i, mgr.transform.children.length ≤ i →
        i < max mgr.transform.children.length (k + 1) → i ≠ k →
        mgr2.transform.children[i]? = some []) := by
  refine ⟨(max 0 (window.layer.getD 1)).toNat, _, ?_, elementCreated_eq mgr id window,
    ?_, ?_, ?_, ?_⟩
  · exact Int.toNat_of_nonneg (le_max_left _ _)
  · simp only [addChild_length, List.length_append, List.length_replicate]
    omega
  · intro i hi hik
    simp only [addChild_getElem?, if_neg hik]
    rw [List.getElem?_append_left hi]
  · simp only [addChild_getElem?, if_true, grown_getElem?]
    have hlt : (max 0 (window.layer.getD 1)).toNat < mgr.transform.children.length +
        ((max 0 (window.layer.getD 1)).toNat + 1 - mgr.transform.children.length) := by omega
    simp [hlt]
  · intro i hge hlt hik
    simp only [addChild_getElem?, if_neg hik, grown_getElem?]
    have hlt2 : i < mgr.transform.children.length +
        ((max 0 (window.layer.getD 1)).toNat + 1 - mgr.transform.children.length) := by omega
    simp [hlt2, List.getD, List.getElem?_eq_none hge]

/-- C10 (resize idempotence): a second `handleResize` with the same width and height
returns the state reached by the first, so cached size, matrix and the number of
`setMatrix` calls are the same; and `handleResize` with the cached width and height
returns the state unchanged. -/
theorem handleResize_idempotent (mgr : GUIMgr) (x y width height x2 y2 : Int) :
    handleResize (handleResize mgr x y width height) x2 y2 width height =
        handleResize mgr x y width height ∧
    (handleResize (handleResize mgr x y width height) x2 y2 width height).transform.setMatrixCalls =
        (handleResize mgr x y width height).transform.setMatrixCalls ∧
    handleResize mgr x y mgr.width mgr.height = mgr := by
  have hnoop : ∀ (m : GUIMgr) (a b : Int), handleResize m a b m.width m.height = m := by
    intro m a b
    simp [handleResize]
  have hsize : (handleResize mgr x y width height).width = width ∧
      (handleResize mgr x y width height).height = height := by
    unfold handleResize
    split
    · rename_i h; exact h
    · exact ⟨rfl, rfl⟩
  have h1 : handleResize (handleResize mgr x y width height) x2 y2 width height =
      handleResize mgr x y width height := by
    have := hnoop (handleResize mgr x y width height) x2 y2
    rwa [hsize.1, hsize.2] at this
  exact ⟨h1, by rw [h1], hnoop mgr x y⟩

/-! ## Instances on the sample objects -/

theorem sample_nodeHit_0 : nodeHit sampleWorld2 10 10 ⟨some 0⟩ = true := by
  simp [nodeHit, lockWindow, World.window, sampleWorld2, sampleWindow, Region.contains]
  norm_num

theorem sample_nodeHit_1 : nodeHit sampleWorld2 10 10 ⟨some 1⟩ = true := by
  simp [nodeHit, lockWindow, World.window, sampleWorld2, sampleWindowB, Region.contains]
  norm_num

theorem sample_nodeHit_2 : nodeHit sampleWorld2 10 10 ⟨some 2⟩ = false := by
  simp [nodeHit, lockWindow, World.window, sampleWorld2, sampleWindowC, Region.contains]
  norm_num

/-- Instance of C3: windows 0 and 1 overlap at (10, 10) in layer 0; window 1 wins. -/
theorem hit_test_last_inserted_wins_witness :
    ∃ pre n post id w, [(⟨some 1⟩ : Node)] = pre ++ n :: post ∧
      nodeHit sampleWorld2 10 10 n = true ∧ (∀ m ∈ post, nodeHit sampleWorld2 10 10 m = false) ∧
      lockWindow sampleWorld2 n.window = some (id, w) ∧
      windowAtCursor sampleWorld2 sampleMgr2 10 10 = some (some (id, w)) ∧
      (⟨some 0⟩ : Node).window ≠ some id ∧
      (∃ idA wA, lockWindow sampleWorld2 (⟨some 0⟩ : Node).window = some (idA, wA) ∧
        windowAtCursor sampleWorld2 sampleMgr2 10 10 ≠ some (some (idA, wA))) :=
  hit_test_last_inserted_wins sampleWorld2 sampleMgr2 10 10 [] [[], [⟨some 2⟩]] [] [] []
    ⟨some 0⟩ ⟨some 1⟩ (by decide) rfl
    (by
      intro l hl m hm
      simp only [List.mem_cons, List.mem_singleton, List.not_mem_nil, or_false] at hl
      rcases hl with rfl | rfl
      · simp at hm
      · simp only [List.mem_singleton] at hm
        subst hm
        exact sample_nodeHit_2)
    sample_nodeHit_0 sample_nodeHit_1 (by decide)

/-- Instance of C4: window 0 in layer 0 and window 1 in layer 2 overlap at (10, 10). -/
theorem hit_test_highest_layer_wins_witness :
    ∃ m id w, m ∈ [(⟨some 1⟩ : Node)] ∧ lockWindow sampleWorld2 m.window = some (id, w) ∧
      w.region.contains 10 10 = true ∧
      windowAtCursor sampleWorld2 sampleMgr3 10 10 = some (some (id, w)) :=
  hit_test_highest_layer_wins sampleWorld2 sampleMgr3 10 10 [[⟨some 0⟩], []] [] [⟨some 1⟩]
    ⟨some 1⟩ (by decide) rfl (by simp) sample_nodeHit_1 (by simp)

/-- Instance of the amended C5: a press on window 0 with a handler that accepts. -/
theorem handleEvent_consumed_iff_witness :
    ∃ r, handleEvent (fun _ _ => true) sampleWorld sampleMgr samplePress = some r ∧
      (r.consumed = true ↔
        (samplePress.eventType = EventType.RESIZE ∨
          (isPointerEvent samplePress.eventType = true ∧
            ∃ id ev, r.dispatched = some (id, ev) ∧ (fun _ _ => true) id ev = true))) :=
  handleEvent_consumed_iff (fun _ _ => true) sampleWorld sampleMgr samplePress (by decide)

/-- C5 as stated fails: a Press that is handed to window 0, whose handler returns
false, makes `handleEvent` return false although a target window existed and its
handler was invoked. -/
theorem handleEvent_consumed_counterexample :
    ∃ r, handleEvent (fun _ _ => false) sampleWorld sampleMgr samplePress = some r ∧
      isPointerEvent samplePress.eventType = true ∧
      r.dispatched.map Prod.fst = some 0 ∧
      r.consumed = false ∧
      ¬ (r.consumed = true ↔
          (samplePress.eventType = EventType.RESIZE ∨
            (isPointerEvent samplePress.eventType = true ∧ r.dispatched.isSome = true))) := by
  have hne : sampleMgr.transform.children.length ≠ 0 := by decide
  have h := handleMouse_of_hit (fun _ _ => false) sampleWorld sampleMgr samplePress _ hne
    samplePress_hit
  refine ⟨_, h, rfl, rfl, rfl, ?_⟩
  intro hiff
  have := hiff.mpr (Or.inr ⟨rfl, rfl⟩)
  exact Bool.false_ne_true this

/-- Instance of C6: canvas 0, then canvas 1, attached to window 0; the first link dies. -/
theorem placement_destroy_clears_iff_witness :
    ∃ w1 w2, (addPlacement sampleWorld sampleMgr (some 0) (some 0)).1.window 0 = some w1 ∧
      w1.canvas = some 0 ∧
      (addPlacement (addPlacement sampleWorld sampleMgr (some 0) (some 0)).1 sampleMgr none
        (some 1)).1.window 0 = some w2 ∧
      w2.canvas = some 1 ∧
      (WindowPlacement.destroy
        (addPlacement (addPlacement sampleWorld sampleMgr (some 0) (some 0)).1 sampleMgr none
          (some 1)).1 ⟨some 0, some 0⟩).window 0 = some w2 :=
  (placement_destroy_clears_iff sampleWorld ⟨some 0, some 0⟩ sampleMgr (some 0) none (some 0)
    (some 1) 0 sampleWindow rfl (by decide) (by decide) (by decide)).2.2

/-- Instance of C7: the window of the link has been destroyed. -/
theorem placement_destroy_dead_noop_witness :
    WindowPlacement.destroy sampleDeadWorld ⟨some 0, some 0⟩ = sampleDeadWorld :=
  placement_destroy_dead_noop sampleDeadWorld ⟨some 0, some 0⟩ (Or.inl rfl)

/-! ## Floating point: rounding is idempotent -/

theorem log2Aux_eq : ∀ (fuel n : Nat), n ≤ fuel → log2Aux fuel n = Nat.log2 n := by
  intro fuel
  induction fuel with
  | zero =>
    intro n hn
    have : n = 0 := by omega
    subst this
    rw [Nat.log2]
    simp [log2Aux]
  | succ fuel ih =>
    intro n hn
    rw [Nat.log2]
    by_cases h2 : n < 2
    · have : ¬ n ≥ 2 := by omega
      simp [log2Aux, h2, this]
    · have hge : n ≥ 2 := by omega
      simp only [log2Aux, if_neg h2, if_pos hge]
      rw [ih (n / 2) (by omega)]

theorem natLog2_eq (n : Nat) : natLog2 n = Nat.log2 n :=
  log2Aux_eq n n (Nat.le_refl n)

theorem pow2_eq (k : Int) : pow2 k = (2 : ℚ) ^ k := by
  unfold pow2
  split
  · rename_i h
    have : ((2 : ℚ) ^ k) = (2 : ℚ) ^ (k.toNat : Int) := by rw [Int.toNat_of_nonneg h]
    rw [this, zpow_natCast]
    push_cast
    rfl
  · rename_i h
    have hneg : 0 ≤ -k := by omega
    have : ((2 : ℚ) ^ k) = ((2 : ℚ) ^ ((-k).toNat : Int))⁻¹ := by
      rw [Int.toNat_of_nonneg hneg, zpow_neg, inv_inv]
    rw [this, zpow_natCast]
    push_cast
    simp

theorem pow2_pos (k : Int) : 0 < pow2 k := by
  rw [pow2_eq]; positivity

theorem abs_eq_natAbs_div (q : ℚ) : |q| = (q.num.natAbs : ℚ) / (q.den : ℚ) := by
  conv_lhs => rw [← Rat.num_div_den q]
  rw [abs_div, Nat.abs_cast]
  congr 1
  rw [Nat.cast_natAbs, Int.cast_abs]

theorem ilog2_spec (q : ℚ) (hq : q ≠ 0) :
    (2 : ℚ) ^ (ilog2 q) ≤ |q| ∧ |q| < (2 : ℚ) ^ (ilog2 q + 1) := by
  have hn : q.num.natAbs ≠ 0 := by
    simpa using (Rat.num_ne_zero.mpr hq)
  have hd : q.den ≠ 0 := q.den_nz
  have hn1 := Nat.log2_self_le hn
  have hn2 := @Nat.lt_log2_self q.num.natAbs
  have hd1 := Nat.log2_self_le hd
  have hd2 := @Nat.lt_log2_self q.den
  rw [← natLog2_eq] at hn1 hn2 hd1 hd2
  have habs := abs_eq_natAbs_div q
  have hdpos : (0 : ℚ) < (q.den : ℚ) := by exact_mod_cast Nat.pos_of_ne_zero hd
  set a := natLog2 q.num.natAbs
  set b := natLog2 q.den
  have hn1' : (2 : ℚ) ^ (a : Int) ≤ (q.num.natAbs : ℚ) := by
    rw [zpow_natCast]; exact_mod_cast hn1
  have hn2' : (q.num.natAbs : ℚ) < (2 : ℚ) ^ ((a : Int) + 1) := by
    have : ((a : Int) + 1) = ((a + 1 : Nat) : Int) := by push_cast; rfl
    rw [this, zpow_natCast]; exact_mod_cast hn2
  have hd1' : (2 : ℚ) ^ (b : Int) ≤ (q.den : ℚ) := by
    rw [zpow_natCast]; exact_mod_cast hd1
  have hd2' : (q.den : ℚ) < (2 : ℚ) ^ ((b : Int) + 1) := by
    have : ((b : Int) + 1) = ((b + 1 : Nat) : Int) := by push_cast; rfl
    rw [this, zpow_natCast]; exact_mod_cast hd2
  have h2 : (0 : ℚ) < 2 := by norm_num
  -- lower: 2^(a-b-1) < |q| ; upper: |q| < 2^(a-b+1)
  have hlow : (2 : ℚ) ^ ((a : Int) - b - 1) ≤ |q| := by
    rw [habs, le_div_iff₀ hdpos]
    calc (2 : ℚ) ^ ((a : Int) - b - 1) * (q.den : ℚ)
        ≤ (2 : ℚ) ^ ((a : Int) - b - 1) * (2 : ℚ) ^ ((b : Int) + 1) := by
          apply mul_le_mul_of_nonneg_left hd2'.le; positivity
      _ = (2 : ℚ) ^ (a : Int) := by
          rw [← zpow_add₀ (by norm_num : (2 : ℚ) ≠ 0)]; congr 1; ring
      _ ≤ _ := hn1'
  have hup : |q| < (2 : ℚ) ^ ((a : Int) - b + 1) := by
    rw [habs, div_lt_iff₀ hdpos]
    calc (q.num.natAbs : ℚ) < (2 : ℚ) ^ ((a : Int) + 1) := hn2'
      _ = (2 : ℚ) ^ ((a : Int) - b + 1) * (2 : ℚ) ^ (b : Int) := by
          rw [← zpow_add₀ (by norm_num : (2 : ℚ) ≠ 0)]; congr 1; ring
      _ ≤ (2 : ℚ) ^ ((a : Int) - b + 1) * (q.den : ℚ) := by
          apply mul_le_mul_of_nonneg_left hd1'; positivity
  unfold ilog2
  simp only
  split
  · rename_i h
    rw [pow2_eq] at h
    exact ⟨h, hup⟩
  · rename_i h
    rw [pow2_eq, not_le] at h
    refine ⟨hlow, ?_⟩
    have : (a : Int) - b - 1 + 1 = (a : Int) - b := by ring
    rw [this]
    exact h


theorem ilog2_unique (q : ℚ) (j : Int) (h1 : (2 : ℚ) ^ j ≤ |q|) (h2 : |q| < (2 : ℚ) ^ (j + 1)) :
    ilog2 q = j := by
  have hq : q ≠ 0 := by
    intro h
    rw [h, abs_zero] at h1
    exact absurd h1 (not_le.mpr (by positivity))
  obtain ⟨s1, s2⟩ := ilog2_spec q hq
  have one_lt : (1 : ℚ) < 2 := by norm_num
  have a1 : ilog2 q < j + 1 := (zpow_lt_zpow_iff_right₀ one_lt).mp (lt_of_le_of_lt s1 h2)
  have a2 : j < ilog2 q + 1 := (zpow_lt_zpow_iff_right₀ one_lt).mp (lt_of_le_of_lt h1 s2)
  omega

theorem roundHalfEven_intCast (z : Int) : roundHalfEven (z : ℚ) = z := by
  unfold roundHalfEven
  simp

theorem roundHalfEven_bounds (a b : Int) (m : ℚ) (ha : (a : ℚ) ≤ m) (hb : m ≤ (b : ℚ)) :
    a ≤ roundHalfEven m ∧ roundHalfEven m ≤ b := by
  have hfa : a ≤ ⌊m⌋ := Int.le_floor.mpr ha
  have hfm : ((⌊m⌋ : Int) : ℚ) ≤ m := Int.floor_le m
  have hfb : ⌊m⌋ ≤ b := by
    have : ((⌊m⌋ : Int) : ℚ) ≤ (b : ℚ) := le_trans hfm hb
    exact_mod_cast this
  have hup : m - ((⌊m⌋ : Int) : ℚ) ≥ 1 / 2 → ⌊m⌋ + 1 ≤ b := by
    intro h
    have hlt : ((⌊m⌋ : Int) : ℚ) < (b : ℚ) := by linarith
    have : ⌊m⌋ < b := by exact_mod_cast hlt
    omega
  unfold roundHalfEven
  simp only
  split
  · exact ⟨hfa, hfb⟩
  · rename_i h1
    have h1' : m - ((⌊m⌋ : Int) : ℚ) ≥ 1 / 2 := not_lt.mp h1
    split
    · exact ⟨by omega, hup h1'⟩
    · split
      · exact ⟨hfa, hfb⟩
      · exact ⟨by omega, hup h1'⟩

theorem roundHalfEven_abs_le (B : Int) (m : ℚ) (h : |m| ≤ (B : ℚ)) : |roundHalfEven m| ≤ B := by
  have h' := abs_le.mp h
  have := roundHalfEven_bounds (-B) B m (by push_cast; exact h'.1) h'.2
  exact abs_le.mpr this

theorem roundHalfEven_le_abs (A : Int) (m : ℚ) (h : (A : ℚ) ≤ |m|) : A ≤ |roundHalfEven m| := by
  rcases le_or_lt 0 m with hm | hm
  · rw [abs_of_nonneg hm] at h
    have hA : (A : ℚ) ≤ ((max A 0 : Int) : ℚ) := by exact_mod_cast le_max_left A 0
    have := (roundHalfEven_bounds A (max (⌊m⌋ + 1) A) m h (by
      have h1 : m < ((⌊m⌋ + 1 : Int) : ℚ) := by push_cast; exact Int.lt_floor_add_one m
      have h2 : ((⌊m⌋ + 1 : Int) : ℚ) ≤ ((max (⌊m⌋ + 1) A : Int) : ℚ) := by
        exact_mod_cast le_max_left _ _
      linarith)).1
    exact le_trans this (le_abs_self _)
  · rw [abs_of_neg hm] at h
    have := (roundHalfEven_bounds (min ⌊m⌋ (-A)) (-A) m (by
      have h1 : ((⌊m⌋ : Int) : ℚ) ≤ m := Int.floor_le m
      have h2 : ((min ⌊m⌋ (-A) : Int) : ℚ) ≤ ((⌊m⌋ : Int) : ℚ) := by
        exact_mod_cast min_le_left _ _
      linarith) (by push_cast; linarith)).2
    have h3 : A ≤ -roundHalfEven m := by omega
    exact le_trans h3 (neg_le_abs _)

theorem roundNearestEven_idem (prec : Nat) (hp : 1 ≤ prec) (emin : Int) (q : ℚ) :
    roundNearestEven prec emin (roundNearestEven prec emin q) = roundNearestEven prec emin q := by
  by_cases hq : q = 0
  · simp [roundNearestEven, hq]
  have two_ne : (2 : ℚ) ≠ 0 := by norm_num
  have one_lt : (1 : ℚ) < 2 := by norm_num
  obtain ⟨s1, s2⟩ := ilog2_spec q hq
  have hr : roundNearestEven prec emin q =
      (roundHalfEven (q / (2 : ℚ) ^ (max (ilog2 q) emin - ((prec : Int) - 1))) : ℚ) *
        (2 : ℚ) ^ (max (ilog2 q) emin - ((prec : Int) - 1)) := by
    simp only [roundNearestEven, if_neg hq, pow2_eq]
  rw [hr]
  set e : Int := max (ilog2 q) emin with he
  set ulp : ℚ := (2 : ℚ) ^ (e - ((prec : Int) - 1)) with hulp
  set n : Int := roundHalfEven (q / ulp) with hn
  have hulp_pos : 0 < ulp := by rw [hulp]; positivity
  have hle : ilog2 q ≤ e := le_max_left _ _
  have hemin : emin ≤ e := le_max_right _ _
  -- |q / ulp| < 2 ^ prec
  have hq_lt : |q| < (2 : ℚ) ^ (e + 1) :=
    lt_of_lt_of_le s2 (zpow_le_zpow_right₀ one_lt.le (by omega))
  have hsplit : (2 : ℚ) ^ (e + 1) = (2 : ℚ) ^ (prec : Int) * ulp := by
    rw [hulp, ← zpow_add₀ two_ne]; congr 1; ring
  have hm_lt : |q / ulp| < (2 : ℚ) ^ (prec : Int) := by
    rw [abs_div, abs_of_pos hulp_pos, div_lt_iff₀ hulp_pos, ← hsplit]
    exact hq_lt
  have hpow_cast : (((2 : Int) ^ prec : Int) : ℚ) = (2 : ℚ) ^ (prec : Int) := by
    rw [zpow_natCast]; push_cast; rfl
  have hn_le : |n| ≤ (2 : Int) ^ prec := by
    apply roundHalfEven_abs_le
    rw [hpow_cast]
    exact hm_lt.le
  by_cases hn0 : n = 0
  · simp [hn0, roundNearestEven]
  have hnq : ((n : ℚ)) ≠ 0 := by exact_mod_cast hn0
  have hr0 : (n : ℚ) * ulp ≠ 0 := mul_ne_zero hnq hulp_pos.ne'
  have habs_r : |(n : ℚ) * ulp| = ((|n| : Int) : ℚ) * ulp := by
    rw [abs_mul, abs_of_pos hulp_pos, Int.cast_abs]
  simp only [roundNearestEven, if_neg hr0, pow2_eq]
  rcases lt_or_eq_of_le hn_le with hlt | heq
  · -- same exponent
    have hr_lt : |(n : ℚ) * ulp| < (2 : ℚ) ^ (e + 1) := by
      rw [habs_r, hsplit]
      apply mul_lt_mul_of_pos_right _ hulp_pos
      rw [← hpow_cast]
      exact_mod_cast hlt
    obtain ⟨t1, t2⟩ := ilog2_spec _ hr0
    have hlog_le : ilog2 ((n : ℚ) * ulp) ≤ e := by
      have := (zpow_lt_zpow_iff_right₀ one_lt).mp (lt_of_le_of_lt t1 hr_lt)
      omega
    have hmax : max (ilog2 ((n : ℚ) * ulp)) emin = e := by
      by_cases hcase : ilog2 q ≤ emin
      · have : e = emin := by rw [he]; exact max_eq_right hcase
        rw [this] at hlog_le ⊢
        exact max_eq_right hlog_le
      · have hee : e = ilog2 q := by rw [he]; exact max_eq_left (by omega)
        -- |q/ulp| ≥ 2^(prec-1)
        have hprec : ((prec : Int) - 1) = ((prec - 1 : Nat) : Int) := by omega
        have hpow_cast2 : (((2 : Int) ^ (prec - 1) : Int) : ℚ) = (2 : ℚ) ^ ((prec : Int) - 1) := by
          rw [hprec, zpow_natCast]; push_cast; rfl
        have hsplit2 : (2 : ℚ) ^ e = (2 : ℚ) ^ ((prec : Int) - 1) * ulp := by
          rw [hulp, ← zpow_add₀ two_ne]; congr 1; ring
        have hm_ge : (((2 : Int) ^ (prec - 1) : Int) : ℚ) ≤ |q / ulp| := by
          rw [hpow_cast2, abs_div, abs_of_pos hulp_pos, le_div_iff₀ hulp_pos, ← hsplit2, hee]
          exact s1
        have hn_ge : (2 : Int) ^ (prec - 1) ≤ |n| := roundHalfEven_le_abs _ _ hm_ge
        have hr_ge : (2 : ℚ) ^ e ≤ |(n : ℚ) * ulp| := by
          rw [habs_r, hsplit2]
          apply mul_le_mul_of_nonneg_right _ hulp_pos.le
          rw [← hpow_cast2]
          exact_mod_cast hn_ge
        have := (zpow_lt_zpow_iff_right₀ one_lt).mp (lt_of_le_of_lt hr_ge t2)
        have hlog : ilog2 ((n : ℚ) * ulp) = e := by omega
        rw [hlog]
        exact max_eq_left hemin
    rw [hmax]
    have hdiv : (n : ℚ) * ulp / ulp = (n : ℚ) := by field_simp
    rw [← hulp, hdiv, roundHalfEven_intCast]
  · -- the result is the next power of two
    have hr_eq : |(n : ℚ) * ulp| = (2 : ℚ) ^ (e + 1) := by
      rw [habs_r, hsplit, heq, hpow_cast]
    have hlog : ilog2 ((n : ℚ) * ulp) = e + 1 := by
      apply ilog2_unique
      · rw [hr_eq]
      · rw [hr_eq]
        exact (zpow_lt_zpow_iff_right₀ one_lt).mpr (by omega)
    have hmax : max (ilog2 ((n : ℚ) * ulp)) emin = e + 1 := by
      rw [hlog]; exact max_eq_left (by omega)
    rw [hmax]
    have hulp2 : (2 : ℚ) ^ (e + 1 - ((prec : Int) - 1)) = 2 * ulp := by
      rw [hulp, show e + 1 - ((prec : Int) - 1) = 1 + (e - ((prec : Int) - 1)) by ring,
        zpow_add₀ two_ne, zpow_one]
    rw [hulp2]
    -- n = ± 2 ^ prec, so n / 2 is an integer
    have hprec : prec = (prec - 1) + 1 := by omega
    have hn2 : ∃ k : Int, n = 2 * k := by
      rcases abs_choice n with h | h
      · refine ⟨(2 : Int) ^ (prec - 1), ?_⟩
        rw [← h, heq]
        conv_lhs => rw [hprec, pow_succ]
        ring
      · refine ⟨-(2 : Int) ^ (prec - 1), ?_⟩
        have : n = -|n| := by rw [h]; ring
        rw [this, heq]
        conv_lhs => rw [hprec, pow_succ]
        ring
    obtain ⟨k, hk⟩ := hn2
    have hdiv : (n : ℚ) * ulp / (2 * ulp) = (k : ℚ) := by
      rw [hk]; push_cast; field_simp; ring
    rw [hdiv, roundHalfEven_intCast, hk]
    push_cast
    ring

/-- Rounding to `float` leaves a `float` value unchanged. -/
theorem toFloat_idem (q : ℚ) : toFloat (toFloat q) = toFloat q :=
  roundNearestEven_idem 24 (by decide) (-126) q

theorem intToFloat_zero : intToFloat 0 = 0 := by
  simp [intToFloat, toFloat, roundNearestEven]

/-- Subtracting the `int` 0 from a `float` value gives that value. -/
theorem floatSub_zero (q : ℚ) : floatSub (toFloat q) (intToFloat 0) = toFloat q := by
  rw [intToFloat_zero, floatSub, sub_zero, toFloat_idem]

/-- The pixel position computed by `handleMouse` consists of `float` values. -/
theorem eventX_isFloat (mgr : GUIMgr) (ea : GUIEventAdapter) :
    ∃ q, eventX mgr ea = toFloat q :=
  ⟨_, rfl⟩

theorem eventY_isFloat (mgr : GUIMgr) (ea : GUIEventAdapter) :
    ∃ q, eventY mgr ea = toFloat q := by
  unfold eventY
  by_cases h : ea.mouseYOrientation ≠ MouseYOrientation.Y_INCREASING_DOWNWARDS
  · exact ⟨_, by rw [if_pos h]; rfl⟩
  · exact ⟨_, by rw [if_neg h]; rfl⟩

/-! ## Pointer routing: delivered event, deltas, capture -/

theorem hitLayer_found {world : World} {x y : ℚ} {nodes : List Node} {id : WindowId}
    {w : Window} (h : hitLayer world x y nodes = some (some (id, w))) :
    world.window id = some w ∧ w.region.contains x y = true ∧ (⟨some id⟩ : Node) ∈ nodes := by
  induction nodes with
  | nil => simp [hitLayer] at h
  | cons n rest ih =>
    unfold hitLayer at h
    cases hl : lockWindow world n.window with
    | none => simp [hl] at h
    | some p =>
      obtain ⟨j, v⟩ := p
      simp only [hl] at h
      by_cases hc : v.region.contains x y = true
      · simp only [hc, if_true, Option.some.injEq, Prod.mk.injEq] at h
        obtain ⟨rfl, rfl⟩ := h
        have hf := lockWindow_fst hl
        refine ⟨hf.2, hc, ?_⟩
        cases n
        simp only at hf
        simp [hf.1]
      · simp only [hc] at h
        obtain ⟨h1, h2, h3⟩ := ih h
        exact ⟨h1, h2, List.mem_cons_of_mem _ h3⟩

theorem hitLayers_found {world : World} {x y : ℚ} {layers : List Layer} {id : WindowId}
    {w : Window} (h : hitLayers world x y layers = some (some (id, w))) :
    world.window id = some w ∧ w.region.contains x y = true ∧
      ∃ l ∈ layers, (⟨some id⟩ : Node) ∈ l := by
  induction layers with
  | nil => simp [hitLayers] at h
  | cons l rest ih =>
    unfold hitLayers at h
    by_cases hlen : l.length = 0
    · simp only [hlen, if_true] at h
      obtain ⟨h1, h2, l2, hl2, hm⟩ := ih h
      exact ⟨h1, h2, l2, List.mem_cons_of_mem _ hl2, hm⟩
    · simp only [if_neg hlen] at h
      cases hh : hitLayer world x y l.reverse with
      | none => simp [hh] at h
      | some res =>
        cases res with
        | none =>
          simp only [hh] at h
          obtain ⟨h1, h2, l2, hl2, hm⟩ := ih h
          exact ⟨h1, h2, l2, List.mem_cons_of_mem _ hl2, hm⟩
        | some found =>
          simp only [hh, Option.some.injEq] at h
          subst h
          obtain ⟨h1, h2, h3⟩ := hitLayer_found hh
          exact ⟨h1, h2, l, List.mem_cons_self _ _, List.mem_reverse.mp h3⟩

theorem windowAtCursor_found {world : World} {mgr : GUIMgr} {x y : ℚ} {id : WindowId}
    {w : Window} (h : windowAtCursor world mgr x y = some (some (id, w))) :
    world.window id = some w ∧ w.region.contains x y = true ∧
      ∃ l ∈ mgr.transform.children, (⟨some id⟩ : Node) ∈ l := by
  obtain ⟨h1, h2, l, hl, hm⟩ := hitLayers_found h
  exact ⟨h1, h2, l, List.mem_reverse.mp hl, hm⟩

/-- The event delivered by `dispatch` to a target `(id, w)`. -/
theorem dispatch_some (handler : WindowId → MouseEvent → Bool) (mgr : GUIMgr)
    (event : MouseEvent) (id : WindowId) (w : Window) :
    (dispatch handler mgr event (some (id, w))).dispatched =
        some (id, { event with
          dx := floatSub event.x mgr.last_x
          dy := floatSub event.y mgr.last_y
          x := floatSub event.x (intToFloat w.region.x)
          y := floatSub event.y (intToFloat w.region.y) }) ∧
      (dispatch handler mgr event (some (id, w))).mgr =
        { mgr with last_x := event.x, last_y := event.y } :=
  ⟨rfl, rfl⟩

theorem dispatch_none (handler : WindowId → MouseEvent → Bool) (mgr : GUIMgr)
    (event : MouseEvent) :
    (dispatch handler mgr event none).dispatched = none ∧
      (dispatch handler mgr event none).mgr = mgr :=
  ⟨rfl, rfl⟩

theorem handleMouse_result (handler : WindowId → MouseEvent → Bool) (world : World)
    (mgr : GUIMgr) (ea : GUIEventAdapter) (r : EventResult)
    (hr : handleMouse handler world mgr ea = some r) :
    MouseOutcome world mgr ea r := by
  by_cases hne : mgr.transform.children.length = 0
  · simp only [handleMouse, hne, if_true, Option.some.injEq] at hr
    subst hr
    exact Or.inl ⟨rfl, rfl, rfl⟩
  · cases hhit : windowAtCursor world mgr (eventX mgr ea) (eventY mgr ea) with
    | none =>
      have hx : (mouseEvent mgr ea).x = eventX mgr ea := rfl
      have hy : (mouseEvent mgr ea).y = eventY mgr ea := rfl
      simp [handleMouse, hne, hx, hy, hhit] at hr
    | some hit =>
      rw [handleMouse_of_hit handler world mgr ea hit hne hhit] at hr
      have key : ∀ (m : GUIMgr) (t : WindowPtr), m.last_x = mgr.last_x → m.last_y = mgr.last_y →
          r = dispatch handler m (mouseEvent mgr ea) t →
          (t = none ∧ r.dispatched = none ∧ r.mgr.last_x = mgr.last_x ∧
            r.mgr.last_y = mgr.last_y) ∨
          (∃ id w, t = some (id, w) ∧
            r.dispatched = some (id, { mouseEvent mgr ea with
              dx := floatSub (eventX mgr ea) mgr.last_x
              dy := floatSub (eventY mgr ea) mgr.last_y
              x := floatSub (eventX mgr ea) (intToFloat w.region.x)
              y := floatSub (eventY mgr ea) (intToFloat w.region.y) }) ∧
            r.mgr.last_x = eventX mgr ea ∧ r.mgr.last_y = eventY mgr ea) := by
        intro m t hx hy hrd
        subst hrd
        cases t with
        | none => exact Or.inl ⟨rfl, rfl, hx, hy⟩
        | some p =>
          obtain ⟨id, w⟩ := p
          refine Or.inr ⟨id, w, rfl, ?_, rfl, rfl⟩
          simp only [dispatch, hx, hy]
          rfl
      have viaHit : ∀ (m : GUIMgr), r = dispatch handler m (mouseEvent mgr ea) hit →
          m.last_x = mgr.last_x → m.last_y = mgr.last_y →
          (ea.eventType = EventType.PUSH ∨ ea.eventType = EventType.MOVE ∨
            ea.eventType = EventType.SCROLL) → MouseOutcome world mgr ea r := by
        intro m hrd hx hy hk
        rcases key m hit hx hy hrd with ⟨-, h1, h2, h3⟩ | ⟨id, w, ht, h1, h2, h3⟩
        · exact Or.inl ⟨h1, h2, h3⟩
        · subst ht
          exact Or.inr ⟨id, w, (windowAtCursor_found hhit).1, h1, h2, h3, Or.inr ⟨hk, hhit⟩⟩
      have viaPush : ∀ (m : GUIMgr),
          r = dispatch handler m (mouseEvent mgr ea) (lockWindow world mgr.last_push) →
          m.last_x = mgr.last_x → m.last_y = mgr.last_y →
          (ea.eventType = EventType.DRAG ∨ ea.eventType = EventType.RELEASE) →
          MouseOutcome world mgr ea r := by
        intro m hrd hx hy hk
        rcases key m _ hx hy hrd with ⟨-, h1, h2, h3⟩ | ⟨id, w, ht, h1, h2, h3⟩
        · exact Or.inl ⟨h1, h2, h3⟩
        · have hf := lockWindow_fst ht
          exact Or.inr ⟨id, w, hf.2, h1, h2, h3, Or.inl ⟨hk, hf.1⟩⟩
      cases hk : ea.eventType <;> simp only [hk, Option.some.injEq] at hr <;>
        first
        | exact viaHit _ hr.symm rfl rfl (Or.inl hk)
        | exact viaHit _ hr.symm rfl rfl (Or.inr (Or.inl hk))
        | exact viaHit _ hr.symm rfl rfl (Or.inr (Or.inr hk))
        | exact viaPush _ hr.symm rfl rfl (Or.inl hk)
        | exact viaPush _ hr.symm rfl rfl (Or.inr hk)
        | (subst hr; exact Or.inl ⟨rfl, rfl, rfl⟩)

/-- C11 as amended (vertical flip in machine arithmetic): let `rawY` be
`0.5 * (ny + 1) * H + 0.5` as the machine computes it (the sum `ny + 1` rounded to
`float`, the products and the last sum rounded to `double`, the result stored as
`float`), and `X` the same for `nx` and `W`.  The pixel position of an event handled
by `handleMouse` is `(X, Y)` with `Y = rawY` when the orientation is increasing
downward and `Y = H - rawY`, a `float` subtraction, otherwise: the recorded cursor
position is `(X, Y)`, a dispatched event carries `(X, Y)` minus the region origin of
its target, in `float` arithmetic, which is `Y` itself for a region origin y of 0,
and for Press, Move and Scroll the target is the hit-test result at `(X, Y)`. -/
theorem pixel_position_flip (handler : WindowId → MouseEvent → Bool) (world : World)
    (mgr : GUIMgr) (ea : GUIEventAdapter) (r : EventResult) (id : WindowId) (ev : MouseEvent)
    (rawY X Y : ℚ)
    (hraw : rawY = toFloat (toDouble (toDouble (toDouble
      ((1 / 2 : ℚ) * toFloat (ea.yNormalized + 1)) * (mgr.height : ℚ)) + 1 / 2)))
    (hX : X = toFloat (toDouble (toDouble (toDouble
      ((1 / 2 : ℚ) * toFloat (ea.xNormalized + 1)) * (mgr.width : ℚ)) + 1 / 2)))
    (hY : Y = if ea.mouseYOrientation = MouseYOrientation.Y_INCREASING_DOWNWARDS then rawY
      else toFloat (toFloat (mgr.height : ℚ) - rawY))
    (hr : handleMouse handler world mgr ea = some r)
    (hd : r.dispatched = some (id, ev)) :
    ∃ w, world.window id = some w ∧
      ev.x = toFloat (X - toFloat (w.region.x : ℚ)) ∧
      ev.y = toFloat (Y - toFloat (w.region.y : ℚ)) ∧
      (w.region.y = 0 → ev.y = Y) ∧
      r.mgr.last_x = X ∧ r.mgr.last_y = Y ∧
      (ea.eventType = EventType.PUSH ∨ ea.eventType = EventType.MOVE ∨
          ea.eventType = EventType.SCROLL →
        windowAtCursor world mgr X Y = some (some (id, w))) := by
  have hXe : eventX mgr ea = X := by rw [hX]; rfl
  have hYe : eventY mgr ea = Y := by
    rw [hY, hraw]
    unfold eventY
    by_cases ho : ea.mouseYOrientation = MouseYOrientation.Y_INCREASING_DOWNWARDS
    · simp only [ho, ne_eq, not_true_eq_false, if_false, if_true]
      rfl
    · simp only [ho, ne_eq, not_false_eq_true, if_true, if_false]
      rfl
  rcases handleMouse_result handler world mgr ea r hr with ⟨hnone, -, -⟩ |
    ⟨id2, w, hw, hdisp, hlx, hly, htarget⟩
  · rw [hnone] at hd; simp at hd
  · rw [hdisp] at hd
    simp only [Option.some.injEq, Prod.mk.injEq] at hd
    obtain ⟨rfl, rfl⟩ := hd
    subst hXe
    subst hYe
    refine ⟨w, hw, rfl, rfl, ?_, hlx, hly, ?_⟩
    · intro h0
      obtain ⟨q, hq⟩ := eventY_isFloat mgr ea
      show floatSub (eventY mgr ea) (intToFloat w.region.y) = eventY mgr ea
      rw [h0, hq, floatSub_zero]
    · intro hk
      rcases htarget with ⟨hk2, -⟩ | ⟨-, hhit⟩
      · rcases hk with hk | hk | hk <;> rcases hk2 with hk2 | hk2 <;> rw [hk] at hk2 <;>
          cases hk2
      · exact hhit

/-- C15 (inconsistent capture): if the captured window `W` has been destroyed (and its
node is no longer in the layer stack, which is non-empty and whose nodes are all live),
a Drag or Release returns false, calls no handler and does not fault; afterwards the
capture reference resolves to no window, in this world and in every later world in
which `W` stays destroyed, and after a Release it is the empty reference. -/
theorem destroyed_capture_is_released (handler : WindowId → MouseEvent → Bool)
    (world world3 : World) (mgr : GUIMgr) (ea : GUIEventAdapter) (W : WindowId)
    (hcap : mgr.last_push = some W)
    (hdead : world.window W = none)
    (hdead3 : world3.window W = none)
    (hne : mgr.transform.children.length ≠ 0)
    (hlive : layersLive world mgr.transform.children = true)
    (hk : ea.eventType = EventType.DRAG ∨ ea.eventType = EventType.RELEASE) :
    ∃ r, handleMouse handler world mgr ea = some r ∧
      r.consumed = false ∧ r.dispatched = none ∧
      lockWindow world r.mgr.last_push = none ∧
      lockWindow world3 r.mgr.last_push = none ∧
      (ea.eventType = EventType.RELEASE → r.mgr.last_push = none) := by
  have hlock : lockWindow world mgr.last_push = none := by simp [hcap, lockWindow, hdead]
  have hnoneOr : ∀ (wd : World), wd.window W = none →
      ∀ p : WindowWeakPtr, (p = none ∨ p = some W) → lockWindow wd p = none := by
    intro wd hwd p hp
    rcases hp with rfl | rfl
    · rfl
    · simp [lockWindow, hwd]
  have h := handleMouse_of_hit handler world mgr ea _ hne
    (windowAtCursor_eq_find world mgr _ _ hlive)
  rcases hk with hk | hk
  · simp only [hk, hlock] at h
    exact ⟨_, h, rfl, rfl, hlock, hnoneOr world3 hdead3 _ (Or.inr hcap),
      fun hrel => by rw [hk] at hrel; cases hrel⟩
  · simp only [hk, hlock] at h
    exact ⟨_, h, rfl, rfl, rfl, rfl, fun _ => rfl⟩

/-! ## Hit test: faults, soundness and completeness -/

theorem hitLayer_eq_stop (world : World) (x y : ℚ) (nodes : List Node) :
    hitLayer world x y nodes = stopResult world (nodes.find? (nodeStops world x y)) := by
  induction nodes with
  | nil => rfl
  | cons n rest ih =>
    cases hl : lockWindow world n.window with
    | none => simp [hitLayer, hl, List.find?_cons, nodeStops, stopResult]
    | some p =>
      obtain ⟨id, w⟩ := p
      by_cases hc : w.region.contains x y = true
      · simp [hitLayer, hl, hc, List.find?_cons, nodeStops, stopResult]
      · simp [hitLayer, hl, hc, List.find?_cons, nodeStops, ih]

theorem hitLayers_eq_stop (world : World) (x y : ℚ) (layers : List Layer) :
    hitLayers world x y layers =
      stopResult world ((layers.map List.reverse).flatten.find? (nodeStops world x y)) := by
  induction layers with
  | nil => rfl
  | cons l rest ih =>
    by_cases hlen : l.length = 0
    · have : l = [] := List.length_eq_zero.mp hlen
      subst this
      simp [hitLayers, ih]
    · rw [hitLayers, if_neg hlen, hitLayer_eq_stop]
      simp only [List.map_cons, List.flatten_cons, List.find?_append]
      cases hf : l.reverse.find? (nodeStops world x y) with
      | none => simp [stopResult, ih]
      | some n =>
        cases hl : lockWindow world n.window with
        | none => simp [stopResult, hl]
        | some p => simp [stopResult, hl]

theorem windowAtCursor_eq_stop (world : World) (mgr : GUIMgr) (x y : ℚ) :
    windowAtCursor world mgr x y =
      stopResult world (mgr.transform.children.flatten.reverse.find? (nodeStops world x y)) := by
  unfold windowAtCursor
  rw [hitLayers_eq_stop, List.reverse_flatten, List.map_reverse]

/-- The hit test faults exactly when, in visiting order (highest layer first, last
child first), it reaches a node whose window reference does not resolve before any
node whose region contains the point; on a layer stack whose nodes all resolve it
never faults. -/
theorem hit_test_faults_iff (world : World) (mgr : GUIMgr) (x y : ℚ) :
    (windowAtCursor world mgr x y = none ↔
      ∃ pre n post, mgr.transform.children.flatten.reverse = pre ++ n :: post ∧
        lockWindow world n.window = none ∧
        ∀ m ∈ pre, ∃ id w, lockWindow world m.window = some (id, w) ∧
          w.region.contains x y = false) ∧
    (layersLive world mgr.transform.children = true →
      ∃ hit, windowAtCursor world mgr x y = some hit) := by
  refine ⟨?_, fun hlive => ⟨_, windowAtCursor_eq_find world mgr x y hlive⟩⟩
  rw [windowAtCursor_eq_stop]
  have hpre : ∀ m : Node, nodeStops world x y m = false ↔
      ∃ id w, lockWindow world m.window = some (id, w) ∧ w.region.contains x y = false := by
    intro m
    unfold nodeStops
    cases hl : lockWindow world m.window with
    | none => simp
    | some p =>
      obtain ⟨id, w⟩ := p
      constructor
      · intro h
        exact ⟨id, w, rfl, h⟩
      · rintro ⟨id2, w2, heq, h⟩
        simp only [Option.some.injEq, Prod.mk.injEq] at heq
        rw [heq.2]
        exact h
  constructor
  · intro h
    cases hf : mgr.transform.children.flatten.reverse.find? (nodeStops world x y) with
    | none => simp [hf, stopResult] at h
    | some n =>
      simp only [hf, stopResult, Option.map_eq_none'] at h
      obtain ⟨-, as, bs, hsplit, hnot⟩ := List.find?_eq_some.mp hf
      refine ⟨as, n, bs, hsplit, h, ?_⟩
      intro m hm
      have := hnot m hm
      simp only [Bool.not_eq_true'] at this
      exact (hpre m).mp this
  · rintro ⟨pre, n, post, hsplit, hdead, hpreAll⟩
    have hf : mgr.transform.children.flatten.reverse.find? (nodeStops world x y) = some n := by
      rw [List.find?_eq_some]
      refine ⟨by simp [nodeStops, hdead], pre, post, hsplit, ?_⟩
      intro m hm
      simp [(hpre m).mpr (hpreAll m hm)]
    simp [hf, stopResult, hdead]

/-- C17 (hit-test soundness and completeness): on a layer stack whose nodes are all
live the hit test returns; it returns a window iff some node of the stack has a window
whose region contains the point; a returned window is live, has a node in the stack
and contains the point; if no node's window contains the point the result is empty. -/
theorem hit_test_sound_complete (world : World) (mgr : GUIMgr) (x y : ℚ)
    (hlive : layersLive world mgr.transform.children = true) :
    ∃ hit, windowAtCursor world mgr x y = some hit ∧
      (hit.isSome = true ↔ ∃ l ∈ mgr.transform.children, ∃ n ∈ l, nodeHit world x y n = true) ∧
      (∀ id w, hit = some (id, w) →
        world.window id = some w ∧ w.region.contains x y = true ∧
        ∃ l ∈ mgr.transform.children, (⟨some id⟩ : Node) ∈ l) ∧
      ((∀ l ∈ mgr.transform.children, ∀ n ∈ l, nodeHit world x y n = false) → hit = none) := by
  have heq := windowAtCursor_eq_find world mgr x y hlive
  have hiff : ((mgr.transform.children.flatten.reverse.find? (nodeHit world x y)).bind
      fun n => lockWindow world n.window).isSome = true ↔
      ∃ l ∈ mgr.transform.children, ∃ n ∈ l, nodeHit world x y n = true := by
    constructor
    · intro h
      cases hf : mgr.transform.children.flatten.reverse.find? (nodeHit world x y) with
      | none => simp [hf] at h
      | some n =>
        have hmem := List.mem_of_find?_eq_some hf
        obtain ⟨l, hl, hn⟩ := List.mem_flatten.mp (List.mem_reverse.mp hmem)
        exact ⟨l, hl, n, hn, List.find?_some hf⟩
    · rintro ⟨l, hl, n, hn, hhit⟩
      have hsome : (mgr.transform.children.flatten.reverse.find? (nodeHit world x y)).isSome
          = true := by
        rw [List.find?_isSome]
        exact ⟨n, List.mem_reverse.mpr (List.mem_flatten.mpr ⟨l, hl, hn⟩), hhit⟩
      obtain ⟨m, hm⟩ := Option.isSome_iff_exists.mp hsome
      obtain ⟨id, w, hlock, -⟩ := nodeHit_lock (List.find?_some hm)
      simp [hm, hlock]
  refine ⟨_, heq, hiff, ?_, ?_⟩
  · intro id w hhit
    rw [hhit] at heq
    exact windowAtCursor_found heq
  · intro hnone
    cases hres : (mgr.transform.children.flatten.reverse.find? (nodeHit world x y)).bind
        fun n => lockWindow world n.window with
    | none => rfl
    | some p =>
      have : ((mgr.transform.children.flatten.reverse.find? (nodeHit world x y)).bind
          fun n => lockWindow world n.window).isSome = true := by rw [hres]; rfl
      obtain ⟨l, hl, n, hn, hhit⟩ := hiff.mp this
      rw [hnone l hl n hn] at hhit
      cases hhit

/-- C18 (Move and Scroll re-hit-test and leave the capture alone): a Move or Scroll
event is dispatched to the window found by the hit test at the event's pixel position
(to none if there is none), and `_last_push` afterwards is what it was before, whether
or not a window was captured. -/
theorem move_scroll_rehit_keep_capture (handler : WindowId → MouseEvent → Bool)
    (world : World) (mgr : GUIMgr) (ea : GUIEventAdapter)
    (hlive : layersLive world mgr.transform.children = true)
    (hk : ea.eventType = EventType.MOVE ∨ ea.eventType = EventType.SCROLL) :
    ∃ r hit, handleMouse handler world mgr ea = some r ∧
      windowAtCursor world mgr (eventX mgr ea) (eventY mgr ea) = some hit ∧
      r.dispatched.map Prod.fst = hit.map Prod.fst ∧
      r.mgr.last_push = mgr.last_push := by
  have hw := windowAtCursor_eq_find world mgr (eventX mgr ea) (eventY mgr ea) hlive
  by_cases hne : mgr.transform.children.length = 0
  · have hnil : mgr.transform.children = [] := List.length_eq_zero.mp hne
    refine ⟨{ mgr := mgr, dispatched := none, consumed := false }, _,
      by simp [handleMouse, hne], hw, ?_, rfl⟩
    simp [hnil]
  · have h := handleMouse_of_hit handler world mgr ea _ hne hw
    rcases hk with hk | hk <;> simp only [hk] at h <;>
      exact ⟨_, _, h, hw, dispatch_target _ _ _ _, dispatch_last_push _ _ _ _⟩

/-- C20 (Press overwrites the capture): on a non-empty layer stack a Press sets
`_last_push` to the hit-test result at the press position, whatever it held before,
and is dispatched to that window; when the press hits no window the capture is empty
afterwards and a following Drag or Release has no target. -/
theorem press_overwrites_capture (handler : WindowId → MouseEvent → Bool)
    (world world3 : World) (mgr : GUIMgr) (ea next : GUIEventAdapter)
    (hne : mgr.transform.children.length ≠ 0)
    (hlive : layersLive world mgr.transform.children = true)
    (hlive3 : layersLive world3 mgr.transform.children = true)
    (hk : ea.eventType = EventType.PUSH) :
    ∃ r hit r3, handleMouse handler world mgr ea = some r ∧
      windowAtCursor world mgr (eventX mgr ea) (eventY mgr ea) = some hit ∧
      r.mgr.last_push = hit.map Prod.fst ∧
      r.dispatched.map Prod.fst = hit.map Prod.fst ∧
      handleMouse handler world3 r.mgr next = some r3 ∧
      (hit = none →
        r.mgr.last_push = none ∧
        (next.eventType = EventType.DRAG ∨ next.eventType = EventType.RELEASE →
          r3.dispatched = none ∧ r3.consumed = false)) := by
  have hw := windowAtCursor_eq_find world mgr (eventX mgr ea) (eventY mgr ea) hlive
  have h := handleMouse_of_hit handler world mgr ea _ hne hw
  simp only [hk] at h
  generalize hhitdef : ((mgr.transform.children.flatten.reverse.find?
    (nodeHit world (eventX mgr ea) (eventY mgr ea))).bind fun n => lockWindow world n.window)
    = hit at h hw
  generalize hr : dispatch handler { mgr with last_push := Option.map Prod.fst hit }
    (mouseEvent mgr ea) hit = r at h
  have ht : r.mgr.transform = mgr.transform := by rw [← hr, dispatch_transform]
  have hp : r.mgr.last_push = hit.map Prod.fst := by rw [← hr, dispatch_last_push]
  have hd : r.dispatched.map Prod.fst = hit.map Prod.fst := by rw [← hr, dispatch_target]
  have hne3 : r.mgr.transform.children.length ≠ 0 := by rw [ht]; exact hne
  have hlive3' : layersLive world3 r.mgr.transform.children = true := by rw [ht]; exact hlive3
  obtain ⟨r3, hr3, -, -⟩ := handleMouse_total handler world3 r.mgr next hlive3'
  have h3 := handleMouse_of_hit handler world3 r.mgr next _ hne3
    (windowAtCursor_eq_find world3 r.mgr _ _ hlive3')
  rw [hr3] at h3
  refine ⟨r, hit, r3, h, hw, hp, hd, hr3, ?_⟩
  intro hnone
  have hp0 : r.mgr.last_push = none := by rw [hp, hnone]; rfl
  refine ⟨hp0, ?_⟩
  have hlock : lockWindow world3 r.mgr.last_push = none := by rw [hp0]; rfl
  rintro (hk3 | hk3) <;> simp only [hk3, hlock, Option.some.injEq] at h3 <;> subst h3 <;>
    exact ⟨rfl, rfl⟩

/-! ## Resize: the transform -/

/-- C19 (coordinate transform after resize): for a size different from the cached one,
`handleResize` caches the new size and sets a matrix that maps every point
`(x, y, z)` to `(x, height - y, z)`; the layer stack, the capture reference, the last
cursor position and the registry are unchanged. -/
theorem handleResize_sets_mirror (mgr : GUIMgr) (x y width height : Int) (px py pz : ℚ)
    (hdiff : ¬ (mgr.width = width ∧ mgr.height = height)) :
    (handleResize mgr x y width height).width = width ∧
    (handleResize mgr x y width height).height = height ∧
    preMult (handleResize mgr x y width height).transform.matrix (px, py, pz) =
      (px, (height : ℚ) - py, pz) ∧
    (handleResize mgr x y width height).transform.children = mgr.transform.children ∧
    (handleResize mgr x y width height).last_push = mgr.last_push ∧
    (handleResize mgr x y width height).last_x = mgr.last_x ∧
    (handleResize mgr x y width height).last_y = mgr.last_y ∧
    (handleResize mgr x y width height).elements = mgr.elements := by
  unfold handleResize
  rw [if_neg hdiff]
  refine ⟨rfl, rfl, ?_, rfl, rfl, rfl, rfl, rfl⟩
  simp only [preMult, matrixEntry, List.getD_cons_zero, List.getD_cons_succ]
  simp
  ring

/-- Instance of C19: the 800 × 600 sample manager resized to 1024 × 768. -/
theorem handleResize_sets_mirror_witness :
    (handleResize sampleMgr 0 0 1024 768).width = 1024 ∧
    (handleResize sampleMgr 0 0 1024 768).height = 768 ∧
    preMult (handleResize sampleMgr 0 0 1024 768).transform.matrix (10, 20, 0) =
      (10, ((768 : Int) : ℚ) - 20, 0) ∧
    (handleResize sampleMgr 0 0 1024 768).transform.children = sampleMgr.transform.children ∧
    (handleResize sampleMgr 0 0 1024 768).last_push = sampleMgr.last_push ∧
    (handleResize sampleMgr 0 0 1024 768).last_x = sampleMgr.last_x ∧
    (handleResize sampleMgr 0 0 1024 768).last_y = sampleMgr.last_y ∧
    (handleResize sampleMgr 0 0 1024 768).elements = sampleMgr.elements :=
  handleResize_sets_mirror sampleMgr 0 0 1024 768 10 20 0 (by decide)

/-! ## Canvas attachment selector -/

theorem addPlacementLoop_eq (placement_index : Int) (canvas : CanvasPtr)
    (elements : List (Option WindowId)) :
    ∀ (i : Nat) (world : World) (placements : List WindowPlacement),
      addPlacementLoop placement_index canvas i elements world placements =
        (attachAll canvas (matchedWindows placement_index i elements) world,
          placements ++ (matchedWindows placement_index i elements).map
            fun id => (⟨some id, canvas⟩ : WindowPlacement)) := by
  induction elements with
  | nil => intro i world placements; simp [addPlacementLoop, matchedWindows, attachAll]
  | cons e rest ih =>
    intro i world placements
    unfold addPlacementLoop matchedWindows
    split
    · exact ih _ _ _
    · cases e with
      | none => exact ih _ _ _
      | some id =>
        simp only
        rw [ih]
        simp [attachAll]

theorem castInt_small (i : Nat) (h : i < 2 ^ 31) : castInt i = (i : Int) := by
  unfold castInt
  have h1 : (i + 2 ^ 31) % 2 ^ 32 = i + 2 ^ 31 := Nat.mod_eq_of_lt (by omega)
  rw [h1]
  push_cast
  ring

theorem matchedWindows_all (placement_index : Int) (hneg : placement_index < 0)
    (elements : List (Option WindowId)) :
    ∀ i, matchedWindows placement_index i elements = elements.filterMap id := by
  induction elements with
  | nil => intro i; rfl
  | cons e rest ih =>
    intro i
    unfold matchedWindows
    have hno : ¬ (placement_index ≥ 0 ∧ castInt i ≠ placement_index) := by
      intro h; omega
    rw [if_neg hno]
    cases e with
    | none => simp [ih]
    | some id => simp [ih]

theorem matchedWindows_none (k : Nat) (elements : List (Option WindowId)) :
    ∀ i, k < i → i + elements.length ≤ 2 ^ 31 →
      matchedWindows (k : Int) i elements = [] := by
  induction elements with
  | nil => intro i _ _; rfl
  | cons e rest ih =>
    intro i hki hlen
    simp only [List.length_cons] at hlen
    unfold matchedWindows
    have hyes : ((k : Int) ≥ 0 ∧ castInt i ≠ (k : Int)) := by
      refine ⟨Int.ofNat_nonneg k, ?_⟩
      rw [castInt_small i (by omega)]
      omega
    rw [if_pos hyes]
    exact ih (i + 1) (by omega) (by omega)

theorem matchedWindows_one (k : Nat) (elements : List (Option WindowId)) :
    ∀ i, i ≤ k → i + elements.length ≤ 2 ^ 31 →
      matchedWindows (k : Int) i elements =
        match elements[k - i]? with
        | some (some id) => [id]
        | _ => [] := by
  induction elements with
  | nil => intro i _ _; rfl
  | cons e rest ih =>
    intro i hik hlen
    simp only [List.length_cons] at hlen
    unfold matchedWindows
    by_cases heq : i = k
    · subst heq
      have hno : ¬ ((i : Int) ≥ 0 ∧ castInt i ≠ (i : Int)) := by
        rw [castInt_small i (by omega)]
        simp
      rw [if_neg hno]
      have hrest := matchedWindows_none i rest (i + 1) (by omega) (by omega)
      cases e with
      | none => simp [hrest]
      | some id => simp [hrest]
    · have hyes : ((k : Int) ≥ 0 ∧ castInt i ≠ (k : Int)) := by
        refine ⟨Int.ofNat_nonneg k, ?_⟩
        rw [castInt_small i (by omega)]
        omega
      rw [if_pos hyes, ih (i + 1) (by omega) (by omega)]
      have hsub : k - i = (k - (i + 1)) + 1 := by omega
      rw [hsub, List.getElem?_cons_succ]

theorem attachAll_window (canvas : CanvasPtr) (ids : List WindowId) :
    ∀ (world : World) (j : WindowId),
      (attachAll canvas ids world).window j =
        if j ∈ ids then (world.window j).map (fun v => { v with canvas := canvas })
        else world.window j := by
  induction ids with
  | nil => intro world j; simp [attachAll]
  | cons a rest ih =>
    intro world j
    have hstep : attachAll canvas (a :: rest) world =
        attachAll canvas rest (world.setCanvas a canvas) := rfl
    rw [hstep, ih, window_setCanvas]
    by_cases hja : j = a
    · subst hja
      by_cases hjr : j ∈ rest
      · cases hw : world.window j <;> simp [hjr, hw]
      · simp [hjr]
    · by_cases hjr : j ∈ rest
      · simp [hjr, hja]
      · simp [hjr, hja]

/-- C14 as amended (canvas attachment selector), for a registry of at most `2 ^ 31`
slots: with no index or a negative one, `addPlacement` returns one link per window
held in a slot, in registry order, and sets the canvas on each of them, leaving other
windows alone; with an index `i ≥ 0` whose slot holds window `W` it returns the one
link for `W` and sets the canvas on `W` only; with an index whose slot does not exist
or is empty it returns no link and leaves the world unchanged. -/
theorem addPlacement_selector (world : World) (mgr : GUIMgr) (index : Option Int)
    (canvas : CanvasPtr) (hlen : mgr.elements.length ≤ 2 ^ 31) :
    (index.getD (-1) < 0 →
      (addPlacement world mgr index canvas).2 =
        (mgr.elements.filterMap id).map (fun id => (⟨some id, canvas⟩ : WindowPlacement)) ∧
      (∀ k, some k ∈ mgr.elements →
        (addPlacement world mgr index canvas).1.window k =
          (world.window k).map fun v => { v with canvas := canvas }) ∧
      (∀ j, some j ∉ mgr.elements →
        (addPlacement world mgr index canvas).1.window j = world.window j)) ∧
    (∀ (i : Nat) (W : WindowId), index = some (i : Int) → mgr.elements[i]? = some (some W) →
      (addPlacement world mgr index canvas).2 = [⟨some W, canvas⟩] ∧
      (addPlacement world mgr index canvas).1.window W =
        ((world.window W).map fun v => { v with canvas := canvas }) ∧
      (∀ j, j ≠ W → (addPlacement world mgr index canvas).1.window j = world.window j)) ∧
    (∀ (i : Nat), index = some (i : Int) →
      (mgr.elements[i]? = none ∨ mgr.elements[i]? = some none) →
      addPlacement world mgr index canvas = (world, [])) := by
  have heq := addPlacementLoop_eq (index.getD (-1)) canvas mgr.elements 0 world []
  refine ⟨?_, ?_, ?_⟩
  · intro hneg
    have hm := matchedWindows_all (index.getD (-1)) hneg mgr.elements 0
    unfold addPlacement
    simp only [heq, hm, List.nil_append, true_and]
    constructor
    · intro k hk
      rw [attachAll_window]
      have : k ∈ mgr.elements.filterMap id := by
        rw [List.mem_filterMap]; exact ⟨some k, hk, rfl⟩
      simp [this]
    · intro j hj
      rw [attachAll_window]
      have : j ∉ mgr.elements.filterMap id := by
        rw [List.mem_filterMap]
        rintro ⟨a, ha, haj⟩
        simp only [id_eq] at haj
        exact hj (haj ▸ ha)
      simp [this]
  · intro i W hidx hslot
    have hm := matchedWindows_one i mgr.elements 0 (Nat.zero_le _) (by omega)
    simp only [Nat.sub_zero, hslot] at hm
    unfold addPlacement
    simp only [hidx, Option.getD_some] at heq ⊢
    simp only [heq, hm, List.nil_append, List.map_cons, List.map_nil, true_and]
    constructor
    · rw [attachAll_window]; simp
    · intro j hj
      rw [attachAll_window]; simp [hj]
  · intro i hidx hslot
    have hm := matchedWindows_one i mgr.elements 0 (Nat.zero_le _) (by omega)
    have hm2 : matchedWindows (i : Int) 0 mgr.elements = [] := by
      rcases hslot with h | h <;> simpa [h] using hm
    unfold addPlacement
    simp only [hidx, Option.getD_some] at heq ⊢
    simp [heq, hm2, attachAll]

/-! ## Further instances on the sample objects -/

/-- The Move at the `float` nearest to 0.1 in both coordinates, on the 800 × 600
viewport with y growing upwards, is at pixel (440.5, 269.5) and hits the window that
covers the viewport. -/
theorem sampleTenth_hit :
    eventX sampleMgr sampleTenth = 881 / 2 ∧ eventY sampleMgr sampleTenth = 539 / 2 ∧
    windowAtCursor sampleScreenWorld sampleMgr (eventX sampleMgr sampleTenth)
      (eventY sampleMgr sampleTenth) = some (some (0, sampleScreenWindow)) := by
  have hx : eventX sampleMgr sampleTenth = 881 / 2 := by decide!
  have hy : eventY sampleMgr sampleTenth = 539 / 2 := by decide!
  refine ⟨hx, hy, ?_⟩
  rw [hx, hy]
  simp [windowAtCursor, sampleMgr, hitLayers, hitLayer, lockWindow, World.window,
    sampleScreenWorld, sampleScreenWindow, Region.contains]
  norm_num

/-- That Move is handled by a dispatch to the window that covers the viewport. -/
theorem sampleTenth_handled (handler : WindowId → MouseEvent → Bool) :
    handleMouse handler sampleScreenWorld sampleMgr sampleTenth =
      some (dispatch handler sampleMgr (mouseEvent sampleMgr sampleTenth)
        (some (0, sampleScreenWindow))) :=
  handleMouse_of_hit handler sampleScreenWorld sampleMgr sampleTenth _ (by decide)
    sampleTenth_hit.2.2

/-- C11 as stated fails: for the `float` nearest to 0.1 as normalised x and y, on the
800 × 600 viewport with y growing upwards, the event is delivered to a window with
region origin (0, 0) at x = 440.5 and y = 269.5, while `0.5 * (nx + 1) * W + 0.5` and
`H - (0.5 * (ny + 1) * H + 0.5)` in exact arithmetic are 3695181829/8388608 and
9042919409/33554432. -/
theorem pixel_position_flip_counterexample :
    ∃ r ev, handleMouse (fun _ _ => true) sampleScreenWorld sampleMgr sampleTenth = some r ∧
      r.dispatched = some (0, ev) ∧
      sampleTenth.mouseYOrientation ≠ MouseYOrientation.Y_INCREASING_DOWNWARDS ∧
      ev.x = 881 / 2 ∧ ev.y = 539 / 2 ∧
      (1 / 2 : ℚ) * (sampleTenth.xNormalized + 1) * (sampleMgr.width : ℚ) + 1 / 2 =
        3695181829 / 8388608 ∧
      (sampleMgr.height : ℚ) -
          ((1 / 2 : ℚ) * (sampleTenth.yNormalized + 1) * (sampleMgr.height : ℚ) + 1 / 2) =
        9042919409 / 33554432 ∧
      ev.x ≠ (1 / 2 : ℚ) * (sampleTenth.xNormalized + 1) * (sampleMgr.width : ℚ) + 1 / 2 ∧
      ev.y ≠ (sampleMgr.height : ℚ) -
          ((1 / 2 : ℚ) * (sampleTenth.yNormalized + 1) * (sampleMgr.height : ℚ) + 1 / 2) := by
  have hx : floatSub (eventX sampleMgr sampleTenth) (intToFloat sampleScreenWindow.region.x) =
      881 / 2 := by decide!
  have hy : floatSub (eventY sampleMgr sampleTenth) (intToFloat sampleScreenWindow.region.y) =
      539 / 2 := by decide!
  have ex : (1 / 2 : ℚ) * (sampleTenth.xNormalized + 1) * (sampleMgr.width : ℚ) + 1 / 2 =
      3695181829 / 8388608 := by
    simp [sampleTenth, sampleEvent, sampleMgr]; norm_num
  have ey : (sampleMgr.height : ℚ) -
      ((1 / 2 : ℚ) * (sampleTenth.yNormalized + 1) * (sampleMgr.height : ℚ) + 1 / 2) =
      9042919409 / 33554432 := by
    simp [sampleTenth, sampleEvent, sampleMgr]; norm_num
  refine ⟨_, _, sampleTenth_handled _, rfl, by decide, hx, hy, ex, ey, ?_, ?_⟩
  · rw [ex]
    show floatSub (eventX sampleMgr sampleTenth) (intToFloat sampleScreenWindow.region.x) ≠ _
    rw [hx]; norm_num
  · rw [ey]
    show floatSub (eventY sampleMgr sampleTenth) (intToFloat sampleScreenWindow.region.y) ≠ _
    rw [hy]; norm_num

/-- Instance of the amended C11 on the same input: machine `rawY` is 330.5, the pixel
position is (440.5, 269.5), delivered unchanged to the window with origin (0, 0). -/
theorem pixel_position_flip_witness :
    ∃ r ev w, handleMouse (fun _ _ => true) sampleScreenWorld sampleMgr sampleTenth = some r ∧
      r.dispatched = some (0, ev) ∧ sampleScreenWorld.window 0 = some w ∧
      ev.x = toFloat (881 / 2 - toFloat (w.region.x : ℚ)) ∧ ev.y = 539 / 2 ∧
      r.mgr.last_x = 881 / 2 ∧ r.mgr.last_y = 539 / 2 := by
  obtain ⟨w, hw, hx, -, hy0, hlx, hly, -⟩ :=
    pixel_position_flip (fun _ _ => true) sampleScreenWorld sampleMgr sampleTenth _ 0 _
      (661 / 2) (881 / 2) (539 / 2) (by decide!) (by decide!) (by decide!)
      (sampleTenth_handled _) rfl
  have hw2 : w = sampleScreenWindow := by
    have h2 : sampleScreenWorld.window 0 = some sampleScreenWindow := rfl
    rw [h2] at hw
    exact (Option.some.inj hw).symm
  exact ⟨_, _, w, sampleTenth_handled _, rfl, hw, hx, hy0 (by rw [hw2]; rfl), hlx, hly⟩

/-- C14 as stated fails on a registry with an empty slot: with three slots holding
windows 0 and 1 around an empty slot, index 1 (below the number of slots and below the
number of windows) yields no link, and index 2 (not below the number of windows)
yields a link. -/
theorem addPlacement_selector_counterexample :
    sampleMgr4.elements.length = 3 ∧
    (sampleMgr4.elements.filterMap id).length = 2 ∧
    (addPlacement sampleWorld2 sampleMgr4 (some 1) (some 0)).2 = [] ∧
    (addPlacement sampleWorld2 sampleMgr4 (some 2) (some 0)).2 = [⟨some 1, some 0⟩] := by
  decide

/-- Instance of the amended C14 on the registry with an empty slot: no index attaches
to windows 0 and 1; index 1 names the empty slot. -/
theorem addPlacement_selector_witness :
    (addPlacement sampleWorld2 sampleMgr4 none (some 0)).2 =
        (sampleMgr4.elements.filterMap id).map
          (fun k => (⟨some k, some 0⟩ : WindowPlacement)) ∧
    addPlacement sampleWorld2 sampleMgr4 (some ((1 : Nat) : Int)) (some 0) =
      (sampleWorld2, []) :=
  ⟨((addPlacement_selector sampleWorld2 sampleMgr4 none (some 0) (by decide)).1 (by decide)).1,
    (addPlacement_selector sampleWorld2 sampleMgr4 (some ((1 : Nat) : Int)) (some 0)
      (by decide)).2.2 1 rfl (Or.inr rfl)⟩

/-- Instance of C15: window 0 was captured and destroyed; a Drag finds no target. -/
theorem destroyed_capture_is_released_witness :
    ∃ r, handleMouse (fun _ _ => true) sampleDeadWorld sampleMgrCaptured
        (sampleFar EventType.DRAG) = some r ∧
      r.consumed = false ∧ r.dispatched = none ∧
      lockWindow sampleDeadWorld r.mgr.last_push = none ∧
      lockWindow sampleDeadWorld r.mgr.last_push = none ∧
      ((sampleFar EventType.DRAG).eventType = EventType.RELEASE → r.mgr.last_push = none) :=
  destroyed_capture_is_released (fun _ _ => true) sampleDeadWorld sampleDeadWorld
    sampleMgrCaptured (sampleFar EventType.DRAG) 0 rfl rfl rfl (by decide) (by decide)
    (Or.inl rfl)

/-- Instance of C17: at (10, 10) the stack of `sampleMgr2` has a containing window. -/
theorem hit_test_sound_complete_witness :
    ∃ hit, windowAtCursor sampleWorld2 sampleMgr2 10 10 = some hit ∧
      (hit.isSome = true ↔
        ∃ l ∈ sampleMgr2.transform.children, ∃ n ∈ l, nodeHit sampleWorld2 10 10 n = true) ∧
      (∀ id w, hit = some (id, w) →
        sampleWorld2.window id = some w ∧ w.region.contains 10 10 = true ∧
        ∃ l ∈ sampleMgr2.transform.children, (⟨some id⟩ : Node) ∈ l) ∧
      ((∀ l ∈ sampleMgr2.transform.children, ∀ n ∈ l, nodeHit sampleWorld2 10 10 n = false) →
        hit = none) :=
  hit_test_sound_complete sampleWorld2 sampleMgr2 10 10 (by decide)

/-- Instance of C18 on the sample Move. -/
theorem move_scroll_rehit_keep_capture_witness :
    ∃ r hit, handleMouse (fun _ _ => true) sampleWorld2 sampleMgr2 sampleMoveC = some r ∧
      windowAtCursor sampleWorld2 sampleMgr2 (eventX sampleMgr2 sampleMoveC)
        (eventY sampleMgr2 sampleMoveC) = some hit ∧
      r.dispatched.map Prod.fst = hit.map Prod.fst ∧
      r.mgr.last_push = sampleMgr2.last_push :=
  move_scroll_rehit_keep_capture (fun _ _ => true) sampleWorld2 sampleMgr2 sampleMoveC
    (by decide) (Or.inl rfl)

/-- Instance of C20: a Press at (1000, 1000), over no window, while window 0 of the
sample world is captured, followed by a Drag. -/
theorem press_overwrites_capture_witness :
    ∃ r hit r3, handleMouse (fun _ _ => true) sampleWorld { sampleMgr with last_push := some 0 }
        (sampleFar EventType.PUSH) = some r ∧
      windowAtCursor sampleWorld { sampleMgr with last_push := some 0 }
        (eventX { sampleMgr with last_push := some 0 } (sampleFar EventType.PUSH))
        (eventY { sampleMgr with last_push := some 0 } (sampleFar EventType.PUSH)) = some hit ∧
      r.mgr.last_push = hit.map Prod.fst ∧
      r.dispatched.map Prod.fst = hit.map Prod.fst ∧
      handleMouse (fun _ _ => true) sampleWorld r.mgr (sampleFar EventType.DRAG) = some r3 ∧
      (hit = none →
        r.mgr.last_push = none ∧
        ((sampleFar EventType.DRAG).eventType = EventType.DRAG ∨
            (sampleFar EventType.DRAG).eventType = EventType.RELEASE →
          r3.dispatched = none ∧ r3.consumed = false)) :=
  press_overwrites_capture (fun _ _ => true) sampleWorld sampleWorld
    { sampleMgr with last_push := some 0 } (sampleFar EventType.PUSH)
    (sampleFar EventType.DRAG) (by decide) (by decide) (by decide) rfl

end GuiMgr
